import Mathlib

/-!
Verification development for the OpenX open-redirect scanner
(src/core/utils.py and src/core/scanner.py).

Strings are modelled as lists of characters (PyStr).  The parts of the
Python standard library the scanner relies on (urllib.parse as shipped
with CPython 3.11: urlsplit, urlparse, urljoin, parse_qs, urlencode,
quote_plus, unquote) are modelled faithfully on the ASCII fragment;
Unicode-only behaviours (NFKC netloc checks, non-ASCII lowercasing,
multi-byte percent-decoding beyond the UTF-8 rules modelled below) do
not arise in any statement proved here.
-/

set_option maxRecDepth 10000

abbrev PyStr := List Char

def S (s : String) : PyStr := s.toList

/-- ASCII lower-casing of one character, written as an explicit table so
that facts such as "lower-casing never produces a slash" follow by case
analysis (CPython str.lower on the ASCII range). -/
def pyLowerChar (c : Char) : Char :=
  match c with
  | 'A' => 'a' | 'B' => 'b' | 'C' => 'c' | 'D' => 'd' | 'E' => 'e' | 'F' => 'f'
  | 'G' => 'g' | 'H' => 'h' | 'I' => 'i' | 'J' => 'j' | 'K' => 'k' | 'L' => 'l'
  | 'M' => 'm' | 'N' => 'n' | 'O' => 'o' | 'P' => 'p' | 'Q' => 'q' | 'R' => 'r'
  | 'S' => 's' | 'T' => 't' | 'U' => 'u' | 'V' => 'v' | 'W' => 'w' | 'X' => 'x'
  | 'Y' => 'y' | 'Z' => 'z'
  | c => c

def pyLower (s : PyStr) : PyStr := s.map pyLowerChar

/-- Characters removed by Python str.strip() with no argument (ASCII part). -/
def isPySpace (c : Char) : Bool :=
  c = ' ' || c = '\t' || c = '\n' || c = '\r' || c = '\x0b' || c = '\x0c'

/-- Python str.strip(): remove leading and trailing whitespace. -/
def pyStrip (s : PyStr) : PyStr :=
  ((s.dropWhile isPySpace).reverse.dropWhile isPySpace).reverse

/-- Membership of a character class used by CPython urlsplit's initial
lstrip: C0 control characters and space. -/
def isC0OrSpace (c : Char) : Bool := c.toNat ≤ 32

/-- Bytes CPython urlsplit removes anywhere in the URL. -/
def isUnsafeUrlByte (c : Char) : Bool := c = '\t' || c = '\r' || c = '\n'

def isAsciiUpperCh (c : Char) : Bool := 'A' ≤ c && c ≤ 'Z'
def isAsciiLowerCh (c : Char) : Bool := 'a' ≤ c && c ≤ 'z'
def isAsciiAlpha (c : Char) : Bool := isAsciiUpperCh c || isAsciiLowerCh c
def isAsciiDigit (c : Char) : Bool := '0' ≤ c && c ≤ '9'

/-- CPython urllib.parse.scheme_chars. -/
def isSchemeChar (c : Char) : Bool :=
  isAsciiAlpha c || isAsciiDigit c || c = '+' || c = '-' || c = '.'

/-- Index of the first occurrence of a character (Python str.find). -/
def findIdx (c : Char) : PyStr → Option Nat
  | [] => none
  | x :: xs => if x = c then some 0 else (findIdx c xs).map (· + 1)

/-- Python str.partition(sep) for a one-character separator:
(before, sep-found?, after). -/
def pyPartition (c : Char) (s : PyStr) : PyStr × Bool × PyStr :=
  match findIdx c s with
  | none => (s, false, [])
  | some i => (s.take i, true, s.drop (i + 1))

/-- The third component of Python str.rpartition(sep): the part after the
last occurrence of sep, or the whole string if sep does not occur. -/
def afterLast (c : Char) (s : PyStr) : PyStr :=
  (s.reverse.takeWhile (fun x => x ≠ c)).reverse

/-- Does the list contain the given sublist (Python "in" on strings)? -/
def containsSeq (needle : PyStr) : PyStr → Bool
  | [] => needle.isEmpty
  | x :: xs => needle.isPrefixOf (x :: xs) || containsSeq needle xs

def digitsToNat (s : PyStr) : Nat :=
  s.foldl (fun acc c => 10 * acc + (c.toNat - 48)) 0

/-- Result of CPython urllib.parse.urlsplit. -/
structure SplitResult where
  scheme : PyStr
  netloc : PyStr
  path : PyStr
  query : PyStr
  fragment : PyStr
deriving Repr, DecidableEq

/-- Approximation of CPython 3.11 _check_bracketed_host: the bracketed
part must be an IPv6 address (possibly with a zone id after a percent
sign) or an IPvFuture literal.  Modelled as: an IPvFuture shape, or a
string of hex digits, dots and colons containing at least one colon,
with an arbitrary non-empty zone after a percent sign.  No statement in
this file depends on the exact IPv6 grammar. -/
def bracketedHostOk (h : PyStr) : Bool :=
  if h.head? = some 'v' then
    h.length ≥ 4 && (h.drop 1).any (fun c => c = '.')
  else
    let (addr, hasZone, zone) := pyPartition '%' h
    (addr.any (fun c => c = ':')) &&
    addr.all (fun c => isAsciiDigit c || ('a' ≤ c && c ≤ 'f') || ('A' ≤ c && c ≤ 'F')
      || c = ':' || c = '.') &&
    (!hasZone || zone ≠ [])

def urlsplitPrep (s : PyStr) : PyStr :=
  (s.dropWhile isC0OrSpace).filter (fun c => !isUnsafeUrlByte c)

/-- The scheme-recognition step of urlsplit: split at the first colon when
everything before it is a valid scheme starting with an ASCII letter,
otherwise keep the default scheme. -/
def schemeStep (dflt url1 : PyStr) : PyStr × PyStr :=
  match findIdx ':' url1 with
  | some i =>
    if !(i == 0) && (match url1.head? with | some c => isAsciiAlpha c | none => false)
        && (url1.take i).all isSchemeChar then
      (pyLower (url1.take i), url1.drop (i + 1))
    else (dflt, url1)
  | none => (dflt, url1)

def netlocPred (c : Char) : Bool := c ≠ '/' && c ≠ '?' && c ≠ '#'

/-- Unbalanced square brackets in a netloc raise ValueError. -/
def netlocBad (netloc : PyStr) : Bool :=
  (netloc.contains '[' && !netloc.contains ']')
    || (netloc.contains ']' && !netloc.contains '[')

/-- Fragment and query extraction: split at the first hash, then at the
first question mark of what precedes it, giving (path, query,
fragment). -/
def fragQuerySplit (rest : PyStr) : PyStr × PyStr × PyStr :=
  let (u2, fragment) :=
    match findIdx '#' rest with
    | some j => (rest.take j, rest.drop (j + 1))
    | none => (rest, [])
  let (path, query) :=
    match findIdx '?' u2 with
    | some j => (u2.take j, u2.drop (j + 1))
    | none => (u2, [])
  (path, query, fragment)

/-- CPython 3.11 urllib.parse.urlsplit (parse.py:453-508), with a default
scheme argument as used by urljoin.  Raising ValueError ("Invalid IPv6
URL" and the bracketed-host check) is modelled by Except.error.  The
NFKC _checknetloc check only concerns non-ASCII netlocs and is omitted. -/
def urlsplitDefE (scheme0 url0 : PyStr) : Except Unit SplitResult :=
  let url1 := urlsplitPrep url0
  let dflt := ((scheme0.dropWhile isC0OrSpace).reverse.dropWhile isC0OrSpace).reverse.filter
      (fun c => !isUnsafeUrlByte c)
  match schemeStep dflt url1 with
  | (scheme, url2) =>
    if (S "//").isPrefixOf url2 then
      let netloc := (url2.drop 2).takeWhile netlocPred
      let rest := (url2.drop 2).dropWhile netlocPred
      if netlocBad netloc then .error ()
      else if netloc.contains '[' && netloc.contains ']' then
        if bracketedHostOk ((pyPartition ']' (pyPartition '[' netloc).2.2).1) then
          match fragQuerySplit rest with
          | (path, query, fragment) => .ok ⟨scheme, netloc, path, query, fragment⟩
        else .error ()
      else
        match fragQuerySplit rest with
        | (path, query, fragment) => .ok ⟨scheme, netloc, path, query, fragment⟩
    else
      match fragQuerySplit url2 with
      | (path, query, fragment) => .ok ⟨scheme, [], path, query, fragment⟩

def urlsplitE (url : PyStr) : Except Unit SplitResult := urlsplitDefE [] url

instance {ε α : Type} [DecidableEq ε] [DecidableEq α] : DecidableEq (Except ε α) :=
  fun a b =>
    match a, b with
    | .ok x, .ok y =>
      if h : x = y then isTrue (by rw [h]) else isFalse (by intro hc; cases hc; exact h rfl)
    | .error x, .error y =>
      if h : x = y then isTrue (by rw [h]) else isFalse (by intro hc; cases hc; exact h rfl)
    | .ok _, .error _ => isFalse (by intro hc; cases hc)
    | .error _, .ok _ => isFalse (by intro hc; cases hc)

/-- CPython _NetlocResultMixinStr._hostinfo: the raw (hostname, port)
strings extracted from a netloc. -/
def pyHostinfo (netloc : PyStr) : PyStr × PyStr :=
  let hostinfo := afterLast '@' netloc
  let (_, haveBr, bracketed) := pyPartition '[' hostinfo
  if haveBr then
    let (hostname, _, afterBr) := pyPartition ']' bracketed
    let (_, _, port) := pyPartition ':' afterBr
    (hostname, port)
  else
    let (hostname, _, port) := pyPartition ':' hostinfo
    (hostname, port)

/-- The hostname property: None for an empty host, otherwise lower-cased
(with any IPv6 zone id after a percent sign left untouched). -/
def pyHostname (u : SplitResult) : Option PyStr :=
  let h := (pyHostinfo u.netloc).1
  if h = [] then none
  else
    let (pre, haveP, zone) := pyPartition '%' h
    if haveP then some (pyLower pre ++ '%' :: zone) else some (pyLower pre)

/-- The port property: None when absent, ValueError (Except.error) when
not a digit string or out of range 0-65535. -/
def pyPortE (u : SplitResult) : Except Unit (Option Nat) :=
  let p := (pyHostinfo u.netloc).2
  if p = [] then .ok none
  else if p.all isAsciiDigit then
    let n := digitsToNat p
    if n ≤ 65535 then .ok (some n) else .error ()
  else .error ()

example : urlsplitE (S "http://Example.com:80/x") =
    .ok ⟨S "http", S "Example.com:80", S "/x", [], []⟩ := by decide

example : pyHostname ⟨S "http", S "Example.com:80", S "/x", [], []⟩ = some (S "example.com") := by
  decide

example : urlsplitE (S " javascript:alert(1)") =
    .ok ⟨S "javascript", [], S "alert(1)", [], []⟩ := by decide

example : urlsplitE (S "evil.com") = .ok ⟨[], [], S "evil.com", [], []⟩ := by decide

example : urlsplitE (S "evil.com:8443") = .ok ⟨S "evil.com", [], S "8443", [], []⟩ := by decide

example : urlsplitE (S "//evil.com/p?q=1#f") =
    .ok ⟨[], S "evil.com", S "/p", S "q=1", S "f"⟩ := by decide

example : urlsplitE (S "http://[a.com/x") = .error () := by decide

/-- The inner get_normalized_hostname of scanner.py:604-615 (textually the
same computation as utils.get_normalized_hostname_util, without the
empty-string guard and without its own exception handler): hostname of
the parsed URL, lower-cased, with default ports 80/443 stripped for
http/https, and the full lower-cased netloc when a explicit non-default
truthy port is present.  ValueError from parsing or from the port
accessor propagates as Except.error. -/
def gnhScannerE (url_str : PyStr) : Except Unit (Option PyStr) :=
  match urlsplitE url_str with
  | .error e => .error e
  | .ok u =>
    match pyHostname u with
    | none => .ok none
    | some host =>
      match pyPortE u with
      | .error e => .error e
      | .ok p =>
        if (u.scheme = S "http" ∧ p = some 80) ∨ (u.scheme = S "https" ∧ p = some 443) then
          .ok (some host)
        else if p ≠ none ∧ p ≠ some 0 then
          .ok (some (pyLower u.netloc))
        else
          .ok (some host)

/-- utils.get_normalized_hostname_util (utils.py:91-107): returns None for
a falsy input and recovers from ValueError by returning None. -/
def get_normalized_hostname_util (url_str : PyStr) : Option PyStr :=
  if url_str = [] then none
  else
    match gnhScannerE url_str with
    | .ok v => v
    | .error _ => none

/-- Python truthiness of an optional string (None and the empty string are
falsy). -/
def pyTruthy : Option PyStr → Bool
  | none => false
  | some s => s ≠ []

/-- The normalized hostname of an optional string, with None mapping to
None (get_normalized_hostname_util(None) returns None via its falsy
guard). -/
def gnhOpt : Option PyStr → Option PyStr
  | none => none
  | some s => get_normalized_hostname_util s

def scriptSchemes : List PyStr := [S "javascript:", S "data:", S "vbscript:"]

/-- Does the string start with one of the literal lower-case prefixes
javascript:, data:, vbscript: (Python str.startswith on that tuple,
which is case-sensitive)? -/
def startsScript (s : PyStr) : Bool :=
  scriptSchemes.any (fun p => p.isPrefixOf s)

/-- utils.validate_redirect (utils.py:109-158).  The third and fourth
arguments are optional because scanner.py sometimes passes None for
them.  Any ValueError inside normalization is already absorbed by
get_normalized_hostname_util, so the outer except never fires for
string inputs. -/
def validate_redirect (original_url_str final_redirect_location_str : PyStr)
    (payload_value_str callback_url : Option PyStr) : Bool :=
  let f := pyStrip final_redirect_location_str
  if f = [] then false
  else if startsScript f then true
  else
    let original_hostname := get_normalized_hostname_util original_url_str
    let redirect_hostname := get_normalized_hostname_util f
    let payload_hostname := gnhOpt payload_value_str
    match redirect_hostname with
    | none => false
    | some rh =>
      if pyTruthy callback_url then
        match callback_url with
        | some cb =>
          match get_normalized_hostname_util cb with
          | some ch => rh = ch && original_hostname ≠ some ch
          | none => false
        | none => false
      else
        match payload_hostname with
        | none => false
        | some ph => rh = ph && original_hostname ≠ some ph

/-- scanner._is_external_redirect (scanner.py:601-648): computes the three
normalized hostnames with the nested helper (any ValueError is caught
by the outer handler, returning False), then: False when the redirect
host is missing or equals a present original host; True when it equals
a present payload host; False otherwise. -/
def is_external_redirect (original_url_str final_redirect_location_str payload_value_str : PyStr) :
    Bool :=
  match gnhScannerE original_url_str with
  | .error _ => false
  | .ok original_hostname =>
  match gnhScannerE final_redirect_location_str with
  | .error _ => false
  | .ok redirect_hostname =>
  match gnhScannerE payload_value_str with
  | .error _ => false
  | .ok payload_hostname =>
  match redirect_hostname with
  | none => false
  | some rh =>
    if original_hostname = some rh then false
    else
      match payload_hostname with
      | some ph => rh = ph
      | none => false

example : get_normalized_hostname_util (S "http://Example.com:80/x") = some (S "example.com") := by
  decide

example : get_normalized_hostname_util (S "https://example.com:8443/x") =
    some (S "example.com:8443") := by decide

example : get_normalized_hostname_util (S "javascript:alert(1)") = none := by decide

example : get_normalized_hostname_util (S "//evil.com") = some (S "evil.com") := by decide

example : get_normalized_hostname_util (S "evil.com") = none := by decide

example : validate_redirect (S "http://a.com") (S "http://evil.com")
    (some (S "http://evil.com")) none = true := by decide

example : validate_redirect (S "http://evil.com") (S "http://evil.com")
    (some (S "http://evil.com")) none = false := by decide

example : validate_redirect (S "http://a.com") (S "javascript:alert(1)")
    (some (S "anything")) none = true := by decide

example : is_external_redirect (S "http://a.com") (S "javascript:alert(1)")
    (S "http://evil.com") = false := by decide

example : is_external_redirect (S "http://a.com") (S "http://evil.com/p")
    (S "http://evil.com") = true := by decide

def usesRelative : List PyStr :=
  [[], S "ftp", S "http", S "gopher", S "nntp", S "imap", S "wais", S "file", S "https",
   S "shttp", S "mms", S "prospero", S "rtsp", S "rtsps", S "rtspu", S "sftp", S "svn",
   S "svn+ssh", S "ws", S "wss"]

def usesNetlocL : List PyStr :=
  [[], S "ftp", S "http", S "gopher", S "nntp", S "telnet", S "imap", S "wais", S "file",
   S "mms", S "https", S "shttp", S "snews", S "prospero", S "rtsp", S "rtsps", S "rtspu",
   S "rsync", S "svn", S "svn+ssh", S "sftp", S "nfs", S "git", S "git+ssh", S "ws", S "wss"]

def usesParams : List PyStr :=
  [[], S "ftp", S "hdl", S "prospero", S "http", S "imap", S "https", S "shttp", S "rtsp",
   S "rtsps", S "rtspu", S "sip", S "sips", S "mms", S "sftp", S "tel"]

/-- Result of CPython urllib.parse.urlparse. -/
structure ParseResult where
  scheme : PyStr
  netloc : PyStr
  path : PyStr
  params : PyStr
  query : PyStr
  fragment : PyStr
deriving Repr, DecidableEq

/-- CPython urllib.parse._splitparams, called only when the path contains
a semicolon. -/
def splitParamsPy (url : PyStr) : PyStr × PyStr :=
  if url.contains '/' then
    let seg := afterLast '/' url
    let pre := url.take (url.length - seg.length)
    match findIdx ';' seg with
    | none => (url, [])
    | some j => (pre ++ seg.take j, seg.drop (j + 1))
  else
    match findIdx ';' url with
    | none => (url, [])
    | some j => (url.take j, url.drop (j + 1))

/-- CPython urllib.parse.urlparse with a default scheme. -/
def urlparseDefE (scheme0 url : PyStr) : Except Unit ParseResult := do
  let u ← urlsplitDefE scheme0 url
  if usesParams.contains u.scheme && u.path.contains ';' then
    let (p, params) := splitParamsPy u.path
    pure ⟨u.scheme, u.netloc, p, params, u.query, u.fragment⟩
  else
    pure ⟨u.scheme, u.netloc, u.path, [], u.query, u.fragment⟩

def urlparseE (url : PyStr) : Except Unit ParseResult := urlparseDefE [] url

/-- CPython urllib.parse.urlunsplit. -/
def urlunsplitPy (scheme netloc url query fragment : PyStr) : PyStr :=
  let url :=
    if netloc ≠ [] || (scheme ≠ [] && usesNetlocL.contains scheme && !(S "//").isPrefixOf url)
    then
      let url := if url ≠ [] && url.head? ≠ some '/' then '/' :: url else url
      S "//" ++ netloc ++ url
    else url
  let url := if scheme ≠ [] then scheme ++ ':' :: url else url
  let url := if query ≠ [] then url ++ '?' :: query else url
  if fragment ≠ [] then url ++ '#' :: fragment else url

/-- CPython urllib.parse.urlunparse. -/
def urlunparsePy (p : ParseResult) : PyStr :=
  let u := if p.params ≠ [] then p.path ++ ';' :: p.params else p.path
  urlunsplitPy p.scheme p.netloc u p.query p.fragment

/-- Python str.split(c) for a one-character separator, keeping empty
pieces. -/
def splitChAux (c : Char) : PyStr → PyStr → List PyStr
  | [], acc => [acc.reverse]
  | x :: xs, acc => if x = c then acc.reverse :: splitChAux c xs [] else splitChAux c xs (x :: acc)

def pySplitCh (c : Char) (s : PyStr) : List PyStr := splitChAux c s []

/-- The slice assignment segments[1:-1] = filter(None, segments[1:-1])
from urljoin: drop empty strings strictly between the first and last
element. -/
def filterMiddleAux : List PyStr → List PyStr
  | [] => []
  | [z] => [z]
  | x :: rest => if x = [] then filterMiddleAux rest else x :: filterMiddleAux rest

def filterMiddle : List PyStr → List PyStr
  | [] => []
  | [a] => [a]
  | a :: rest => a :: filterMiddleAux rest

/-- The segment-resolution loop of urljoin: ".." pops (ignoring pops from
an empty list), "." is skipped, anything else is appended. -/
def resolveSegs : List PyStr → List PyStr → List PyStr
  | acc, [] => acc
  | acc, s :: rest =>
    if s = S ".." then resolveSegs acc.dropLast rest
    else if s = S "." then resolveSegs acc rest
    else resolveSegs (acc ++ [s]) rest

/-- CPython urllib.parse.urljoin (parse.py:541-605).  A ValueError raised
by parsing either argument propagates as Except.error. -/
def urljoinE (base url : PyStr) : Except Unit PyStr := do
  if base = [] then pure url
  else if url = [] then pure base
  else
    let b ← urlparseDefE [] base
    let u ← urlparseDefE b.scheme url
    if u.scheme ≠ b.scheme || !usesRelative.contains u.scheme then pure url
    else
      let step1 : Option (PyStr × PyStr) :=
        if usesNetlocL.contains u.scheme then
          if u.netloc ≠ [] then none else some (b.netloc, u.path)
        else some (u.netloc, u.path)
      match step1 with
      | none => pure (urlunparsePy ⟨u.scheme, u.netloc, u.path, u.params, u.query, u.fragment⟩)
      | some (netloc, path) =>
        if path = [] && u.params = [] then
          let query := if u.query = [] then b.query else u.query
          pure (urlunparsePy ⟨u.scheme, netloc, b.path, b.params, query, u.fragment⟩)
        else
          let baseParts0 := pySplitCh '/' b.path
          let baseParts :=
            if baseParts0.getLast? ≠ some [] then baseParts0.dropLast else baseParts0
          let segments :=
            if path.head? = some '/' then pySplitCh '/' path
            else filterMiddle (baseParts ++ pySplitCh '/' path)
          let resolved := resolveSegs [] segments
          let resolved :=
            if segments.getLast? = some (S ".") || segments.getLast? = some (S "..") then
              resolved ++ [[]]
            else resolved
          let joined := List.intercalate (S "/") resolved
          let newPath := if joined = [] then S "/" else joined
          pure (urlunparsePy ⟨u.scheme, netloc, newPath, u.params, u.query, u.fragment⟩)

example : urljoinE (S "http://a.com/x?p=1") (S "//evil.com") = .ok (S "http://evil.com") := by
  decide

example : urljoinE (S "http://a.com/x?p=1") (S "javascript:alert(1)") =
    .ok (S "javascript:alert(1)") := by decide

example : urljoinE (S "http://a.com/x/y?p=1") (S "z") = .ok (S "http://a.com/x/z") := by decide

example : urljoinE (S "http://a.com/x/y?p=1") (S "/z") = .ok (S "http://a.com/z") := by decide

example : urljoinE (S "http://a.com/x/y?p=1") (S "http://b.org/q") = .ok (S "http://b.org/q") := by
  decide

def hexVal (c : Char) : Option Nat :=
  if isAsciiDigit c then some (c.toNat - 48)
  else if 'a' ≤ c && c ≤ 'f' then some (c.toNat - 87)
  else if 'A' ≤ c && c ≤ 'F' then some (c.toNat - 55)
  else none

def hexUp (n : Nat) : Char :=
  match n with
  | 0 => '0' | 1 => '1' | 2 => '2' | 3 => '3' | 4 => '4' | 5 => '5' | 6 => '6' | 7 => '7'
  | 8 => '8' | 9 => '9' | 10 => 'A' | 11 => 'B' | 12 => 'C' | 13 => 'D' | 14 => 'E'
  | _ => 'F'

/-- UTF-8 encoding of one character as byte values. -/
def utf8Bytes (c : Char) : List Nat :=
  let n := c.toNat
  if n < 128 then [n]
  else if n < 2048 then [192 + n / 64, 128 + n % 64]
  else if n < 65536 then [224 + n / 4096, 128 + (n / 64) % 64, 128 + n % 64]
  else [240 + n / 262144, 128 + (n / 4096) % 64, 128 + (n / 64) % 64, 128 + n % 64]

/-- CPython _ALWAYS_SAFE: characters quote never encodes. -/
def isAlwaysSafe (c : Char) : Bool :=
  isAsciiAlpha c || isAsciiDigit c || c = '_' || c = '.' || c = '-' || c = '~'

/-- urllib.parse.quote_plus with safe equal to the empty string, as used
by urlencode: safe characters pass, space becomes a plus, everything
else is percent-encoded byte-wise in upper-case hex. -/
def quote_plus (s : PyStr) : PyStr :=
  s.flatMap fun c =>
    if isAlwaysSafe c then [c]
    else if c = ' ' then ['+']
    else (utf8Bytes c).flatMap fun b => ['%', hexUp (b / 16), hexUp (b % 16)]

/-- Percent-decoding (urllib.parse.unquote restricted to the ASCII
fragment): a valid %XX pair below 0x80 decodes to that character, a
byte of 0x80 or above stands for part of a multi-byte UTF-8 sequence
outside the modelled fragment and is mapped to U+FFFD, and an invalid
escape is left untouched. -/
def unquoteStr : PyStr → PyStr
  | [] => []
  | '%' :: h1 :: h2 :: rest =>
    (match hexVal h1, hexVal h2 with
     | some a, some b =>
       (if 16 * a + b < 128 then Char.ofNat (16 * a + b) else '�') :: unquoteStr rest
     | _, _ => '%' :: unquoteStr (h1 :: h2 :: rest))
  | c :: rest => c :: unquoteStr rest

/-- The per-field decoding of parse_qsl: plus signs become spaces, then
percent-escapes are decoded. -/
def unquotePlus (s : PyStr) : PyStr :=
  unquoteStr (s.map fun c => if c = '+' then ' ' else c)

/-- urllib.parse.parse_qsl with default arguments (keep_blank_values
False, separator the ampersand): empty chunks and chunks without an
equals sign or with an empty value are dropped. -/
def parse_qsl (qs : PyStr) : List (PyStr × PyStr) :=
  if qs = [] then []
  else
    (pySplitCh '&' qs).filterMap fun nv =>
      if nv = [] then none
      else
        match pyPartition '=' nv with
        | (_, false, _) => none
        | (name, true, value) =>
          if value = [] then none else some (unquotePlus name, unquotePlus value)

def qsInsert (d : List (PyStr × List PyStr)) (k : PyStr) (v : PyStr) :
    List (PyStr × List PyStr) :=
  match d with
  | [] => [(k, [v])]
  | (k', vs) :: rest => if k' = k then (k', vs ++ [v]) :: rest else (k', vs) :: qsInsert rest k v

/-- urllib.parse.parse_qs: group parse_qsl pairs into an insertion-ordered
dictionary from names to value lists. -/
def parse_qs (qs : PyStr) : List (PyStr × List PyStr) :=
  (parse_qsl qs).foldl (fun d kv => qsInsert d kv.1 kv.2) []

/-- Python dict assignment d[k] = v: replace the value in place when the
key exists, otherwise append the pair. -/
def dictSet (d : List (PyStr × List PyStr)) (k : PyStr) (v : List PyStr) :
    List (PyStr × List PyStr) :=
  if d.any (fun kv => kv.1 = k) then d.map (fun kv => if kv.1 = k then (k, v) else kv)
  else d ++ [(k, v)]

/-- urllib.parse.urlencode with doseq True and the default quote_plus. -/
def urlencodeDoseq (q : List (PyStr × List PyStr)) : PyStr :=
  List.intercalate ['&']
    (q.flatMap fun kv => kv.2.map fun v => quote_plus kv.1 ++ '=' :: quote_plus v)

/-- utils.extract_redirect_params' vocabulary (utils.py:65-70). -/
def common_redirect_params : List PyStr :=
  [S "url", S "redirect", S "return", S "callback", S "next", S "target", S "goto", S "link",
   S "forward", S "continue", S "destination", S "redir", S "location", S "site",
   S "returnUrl", S "returnURL", S "redirect_uri", S "redirectUrl", S "redirectURL",
   S "returnTo", S "return_to", S "backUrl", S "back_url", S "successUrl", S "success_url"]

/-- utils.extract_redirect_params (utils.py:63-88): keep the query keys
whose lower-case form appears in the vocabulary, else fall back to the
first ten vocabulary entries; parse errors also fall back. -/
def extract_redirect_params (url : PyStr) : List PyStr :=
  match urlsplitE url with
  | .error _ => common_redirect_params.take 10
  | .ok parsed =>
    let keys := (parse_qs parsed.query).map (fun kv => kv.1)
    let lowered := common_redirect_params.map pyLower
    let potential := keys.filter (fun k => lowered.contains (pyLower k))
    if potential = [] then common_redirect_params.take 10 else potential

/-- The query rewrite of scanner.test_url_parameter (scanner.py:107-118):
parse the query, overwrite the parameter with the single payload value,
re-encode, and rebuild the URL. -/
def rebuildTestUrl (parsed : ParseResult) (param payload : PyStr) : PyStr :=
  let qp := dictSet (parse_qs parsed.query) param [payload]
  let newQuery := urlencodeDoseq qp
  urlunparsePy ⟨parsed.scheme, parsed.netloc, parsed.path, parsed.params, newQuery,
    parsed.fragment⟩

example : parse_qs (S "next=x&a=&b&c=%41+d") = [(S "next", [S "x"]), (S "c", [S "A d"])] := by
  decide

example : urlencodeDoseq [(S "next", [S "http://evil.com"]), (S "a", [S "1", S "2"])] =
    S "next=http%3A%2F%2Fevil.com&a=1&a=2" := by decide

example : extract_redirect_params (S "http://a.com/?next=x") = [S "next"] := by decide

example :
    (urlparseE (S "http://a.com/p?next=x")).map
      (fun p => rebuildTestUrl p (S "next") (S "http://evil.com")) =
    .ok (S "http://a.com/p?next=http%3A%2F%2Fevil.com") := by decide

/-- One HTTP request as issued through make_request or session.post:
method, URL, at most one injected header, at most one injected cookie,
at most one form field, and the allow_redirects flag. -/
structure Request where
  method : PyStr
  url : PyStr
  hdr : Option (PyStr × PyStr) := none
  cookie : Option (PyStr × PyStr) := none
  formData : Option (PyStr × PyStr) := none
  allowRedirects : Bool := true
deriving Repr, DecidableEq

/-- An HTTP response: status code, header list (looked up
case-insensitively, as requests' CaseInsensitiveDict does) and body
text. -/
structure Response where
  status : Nat
  headers : List (PyStr × PyStr) := []
  body : PyStr := []
deriving Repr, DecidableEq

/-- The network: make_request returns None on any transport error, which
the oracle models directly. -/
abbrev Http := Request → Option Response

def getHeaderOpt (hs : List (PyStr × PyStr)) (name : PyStr) : Option PyStr :=
  (hs.find? (fun kv => pyLower kv.1 = pyLower name)).map (fun kv => kv.2)

/-- response.headers.get('Location', ''). -/
def getLoc (r : Response) : PyStr := (getHeaderOpt r.headers (S "Location")).getD []

/-- dict(response.headers) if response.headers else None. -/
def headersDict (r : Response) : Option (List (PyStr × PyStr)) :=
  if r.headers = [] then none else some r.headers

def isRedirectStatus (n : Nat) : Bool :=
  n = 301 || n = 302 || n = 303 || n = 307 || n = 308

/-- The configuration mapping as read by the scanner, with the defaults
the code supplies at each access site already applied. -/
structure Config where
  follow_redirects : Nat := 5
  callback_url : Option PyStr := none
  fast : Bool := false
  headers_test : Bool := false
  show_response_headers : Bool := false
deriving Repr, DecidableEq

def mkGet (u : PyStr) : Request := { method := S "GET", url := u, allowRedirects := false }

/-- One result dictionary produced by a vector tester.  Keys that a given
dictionary does not carry are None / empty here. -/
structure Finding where
  vulnerable : Bool
  url : PyStr
  original_url : PyStr
  payload : PyStr := []
  parameter : Option PyStr := none
  header_name : Option PyStr := none
  cookie_name : Option PyStr := none
  method : Option PyStr := none
  status_code : Option Nat := none
  first_location_header : Option PyStr := none
  final_location : Option PyStr := none
  redirect_location : Option PyStr := none
  redirect_chain : List PyStr := []
  response_headers : Option (List (PyStr × PyStr)) := none
  vulnerable_response_headers : Option (List (PyStr × PyStr)) := none
  severity : Option PyStr := none
deriving Repr, DecidableEq

/-- State of the hop-following loop of test_url_parameter
(scanner.py:138-182): Location headers collected so far, current final
location, headers of the response that issued the last redirect, and
the follow-up requests issued. -/
structure ChainState where
  chain : List PyStr
  final : PyStr
  hdrs : List (PyStr × PyStr)
  reqs : List Request
deriving Repr, DecidableEq

/-- The while-loop of scanner.py:146-178, with the hop budget as fuel.
A ValueError from urljoin is caught by the handler at scanner.py:180
and simply ends the chain. -/
def followLoop (http : Http) : Nat → PyStr → PyStr → ChainState → ChainState
  | 0, _, _, st => st
  | fuel + 1, base, cur, st =>
    match urljoinE base cur with
    | .error _ => st
    | .ok absUrl =>
      let req := mkGet absUrl
      match http req with
      | none => { st with reqs := st.reqs ++ [req] }
      | some resp =>
        if !isRedirectStatus resp.status then
          { st with final := absUrl, reqs := st.reqs ++ [req] }
        else
          let nxt := getLoc resp
          if nxt = [] then { st with final := absUrl, reqs := st.reqs ++ [req] }
          else
            followLoop http fuel absUrl nxt
              { chain := st.chain ++ [nxt], final := nxt, hdrs := resp.headers,
                reqs := st.reqs ++ [req] }

def squote : Char := Char.ofNat 39

/-- Tokens of the fixed regular expressions the scanner matches against
page bodies.  Each pattern has exactly one capturing group. -/
inductive RTok where
  | lit (s : PyStr)
  | wsStar
  | quoteOpt
  | quote1
  | digits1
  | cap (keep : Char → Bool)

/-- Deterministic matcher for the token lists below.  All the scanner's
patterns are backtracking-free: every greedy class excludes the
character that must follow it. -/
def matchToks : List RTok → PyStr → Option PyStr → Option (PyStr × PyStr)
  | [], s, capv => some (capv.getD [], s)
  | t :: ts, s, capv =>
    match t with
    | .lit l => if l.isPrefixOf s then matchToks ts (s.drop l.length) capv else none
    | .wsStar => matchToks ts (s.dropWhile isPySpace) capv
    | .quoteOpt =>
      match s with
      | c :: rest => if c = '"' || c = squote then matchToks ts rest capv else matchToks ts s capv
      | [] => matchToks ts [] capv
    | .quote1 =>
      match s with
      | c :: rest => if c = '"' || c = squote then matchToks ts rest capv else none
      | [] => none
    | .digits1 =>
      let ds := s.takeWhile isAsciiDigit
      if ds = [] then none else matchToks ts (s.drop ds.length) capv
    | .cap keep =>
      let cs := s.takeWhile keep
      if cs = [] then none else matchToks ts (s.drop cs.length) (some cs)

/-- re.search: try the pattern at each position from the left, returning
the first capture. -/
def searchFirst (toks : List RTok) : PyStr → Option PyStr
  | [] => (matchToks toks [] none).map (fun r => r.1)
  | c :: rest =>
    match matchToks toks (c :: rest) none with
    | some (capv, _) => some capv
    | none => searchFirst toks rest

def findallFuel (toks : List RTok) : Nat → PyStr → List PyStr
  | 0, _ => []
  | _ + 1, [] => []
  | fuel + 1, c :: rest =>
    match matchToks toks (c :: rest) none with
    | some (capv, after) => capv :: findallFuel toks fuel after
    | none => findallFuel toks fuel rest

/-- re.findall: non-overlapping matches from the left.  The fuel equals
the string length, which suffices because every pattern below consumes
at least one character per match. -/
def findallCaps (toks : List RTok) (s : PyStr) : List PyStr := findallFuel toks (s.length + 1) s

def notQuoteCh (c : Char) : Bool := !(c = '"' || c = squote)

def metaCapCh (c : Char) : Bool := !(c = '"' || c = squote || c = '>' || isPySpace c)

/-- The meta-refresh pattern of scanner.py:208. -/
def metaToks : List RTok :=
  [.lit (S "content="), .quoteOpt, .digits1, .lit (S ";"), .wsStar, .lit (S "url="),
   .cap metaCapCh]

def wsEq : List RTok := [.wsStar, .lit (S "="), .wsStar]

/-- The eleven JavaScript-redirect patterns of scanner.py:243-254, in
source order, compiled to token lists (the page body is lower-cased
before matching, so the literals are lower-case). -/
def jsPatterns : List (List RTok) :=
  [ [.lit (S "window.location")] ++ wsEq ++ [.quote1, .cap notQuoteCh, .quote1],
    [.lit (S "window.location.href")] ++ wsEq ++ [.quote1, .cap notQuoteCh, .quote1],
    [.lit (S "document.location")] ++ wsEq ++ [.quote1, .cap notQuoteCh, .quote1],
    [.lit (S "location.replace(") , .quote1, .cap notQuoteCh, .quote1, .lit (S ")")],
    [.lit (S "window.location")] ++ wsEq ++
      [.lit (S "\""), .cap (fun c => c ≠ '"'), .lit (S "\"")],
    [.lit (S "location.href")] ++ wsEq ++ [.quote1, .cap notQuoteCh, .quote1],
    [.lit (S "location.assign("), .quote1, .cap notQuoteCh, .quote1, .lit (S ")")],
    [.lit (S "window.open("), .quote1, .cap notQuoteCh, .quote1],
    [.lit (S "document.location.href")] ++ wsEq ++ [.quote1, .cap notQuoteCh, .quote1],
    [.lit (S "top.location")] ++ wsEq ++ [.quote1, .cap notQuoteCh, .quote1],
    [.lit (S "parent.location")] ++ wsEq ++ [.quote1, .cap notQuoteCh, .quote1] ]

example :
    searchFirst metaToks (pyLower (S "<meta http-equiv=\"refresh\" content=\"0;url=http://evil.com\">")) =
    some (S "http://evil.com") := by decide

example :
    findallCaps ([RTok.lit (S "window.location")] ++ wsEq ++
        [.quote1, .cap notQuoteCh, .quote1])
      (S "window.location = \"http://evil.com/a\"; window.location=\"/b\";") =
    [S "http://evil.com/a", S "/b"] := by decide

/-- The call self._determine_severity(payload, redirect_url) at
scanner.py:236 and scanner.py:284 passes two arguments to a method
whose signature (scanner.py:660) requires three; Python raises
TypeError before the method body runs.  The error value models that
TypeError. -/
def determineSeverityTwoArgs (a b : PyStr) : Except Unit PyStr := .error ()

/-- scanner._determine_severity (scanner.py:660-709), three-argument form:
script and data URIs are High; a confirmed external redirect to the
payload host is High; otherwise http/https/protocol-relative terminals
are classified by comparing raw lower-cased netlocs, and everything
else (including parse failures) is Low. -/
def determine_severity (original_url_str payload_value_str final_redirect_location_str : PyStr) :
    PyStr :=
  if startsScript final_redirect_location_str then S "High"
  else if is_external_redirect original_url_str final_redirect_location_str payload_value_str then
    S "High"
  else if (S "http://").isPrefixOf final_redirect_location_str
      || (S "https://").isPrefixOf final_redirect_location_str
      || (S "//").isPrefixOf final_redirect_location_str then
    match urlparseE original_url_str, urlparseE final_redirect_location_str with
    | .ok po, .ok pf =>
      let originalNetloc := pyLower po.netloc
      let redirectNetloc := pyLower pf.netloc
      if originalNetloc ≠ [] && redirectNetloc ≠ [] then
        if originalNetloc ≠ redirectNetloc then S "Medium" else S "Low"
      else if redirectNetloc ≠ [] then S "Medium"
      else S "Low"
    | _, _ => S "Low"
  else S "Low"

/-- The JavaScript-match loop of scanner.py:258-285 for one pattern's
match list.  Returns the follow-up requests issued and whether a
validated match was reached: reaching the return dictionary calls the
two-argument _determine_severity, so the TypeError escapes to the
function-level handler (scanner.py:296) and the whole attempt yields
None. -/
def jsMatchLoop (http : Http) (cfg : Config) (parsed : ParseResult) (payload : PyStr) :
    List PyStr → List Request × Bool
  | [] => ([], false)
  | m :: rest =>
    if validate_redirect payload m cfg.callback_url none then
      if m.head? = some '/' then
        let req := mkGet (parsed.scheme ++ S "://" ++ parsed.netloc ++ m)
        match http req with
        | none =>
          let (rs, b) := jsMatchLoop http cfg parsed payload rest
          (req :: rs, b)
        | some r =>
          if r.status ≥ 400 then
            let (rs, b) := jsMatchLoop http cfg parsed payload rest
            (req :: rs, b)
          else ([req], true)
      else ([], true)
    else jsMatchLoop http cfg parsed payload rest

def jsPatternLoop (http : Http) (cfg : Config) (parsed : ParseResult) (payload content : PyStr) :
    List (List RTok) → List Request × Bool
  | [] => ([], false)
  | p :: ps =>
    let (rs, b) := jsMatchLoop http cfg parsed payload (findallCaps p content)
    if b then (rs, true)
    else
      let (rs2, b2) := jsPatternLoop http cfg parsed payload content ps
      (rs ++ rs2, b2)

/-- The meta-refresh and JavaScript body checks of scanner.py:202-285,
entered when the first response has status 200.  The meta branch's
return dictionary is unreachable: its severity field calls the
two-argument _determine_severity, and the TypeError is swallowed by
the handler at scanner.py:238, after which the JavaScript branch runs;
a validated JavaScript match likewise raises at scanner.py:284, where
no local handler exists, so the attempt returns None. -/
def body200Checks (http : Http) (cfg : Config) (parsed : ParseResult)
    (testUrl url param payload : PyStr) (response : Response) :
    Option Finding × List Request :=
  let content := pyLower response.body
  let nonVuln : Finding :=
    { vulnerable := false, url := testUrl, original_url := url, parameter := some param,
      payload := payload, status_code := some response.status }
  let metaStep : Option Finding × List Request :=
    if containsSeq (S "http-equiv=\"refresh\"") content then
      match searchFirst metaToks content with
      | some ru =>
        let full :=
          if ru.head? = some '/' then parsed.scheme ++ S "://" ++ parsed.netloc ++ ru else ru
        let req := mkGet full
        match http req with
        | none => (none, [req])
        | some fr =>
          if fr.status = 200 then
            if validate_redirect payload ru cfg.callback_url none then
              match determineSeverityTwoArgs payload ru with
              | .ok sev =>
                (some { vulnerable := true, url := testUrl, original_url := url,
                        parameter := some param, payload := payload,
                        method := some (S "Meta Refresh"),
                        status_code := some response.status, redirect_location := some ru,
                        redirect_chain := [ru], severity := some sev }, [req])
              | .error _ => (none, [req])
            else (none, [req])
          else (none, [req])
      | none => (none, [])
    else (none, [])
  match metaStep with
  | (some f, rs) => (some f, rs)
  | (none, rs) =>
    let (rs2, crashed) := jsPatternLoop http cfg parsed payload content jsPatterns
    if crashed then (none, rs ++ rs2) else (some nonVuln, rs ++ rs2)

/-- scanner.test_url_parameter (scanner.py:103-299).  Returns the result
dictionary (None on transport failure of the probe or on the unhandled
TypeError of the JavaScript branch) together with every request
issued. -/
def test_url_parameter (http : Http) (cfg : Config) (url param payload : PyStr) :
    Option Finding × List Request :=
  match urlparseE url with
  | .error _ => (none, [])
  | .ok parsed =>
    let testUrl := rebuildTestUrl parsed param payload
    let req0 := mkGet testUrl
    match http req0 with
    | none => (none, [req0])
    | some response =>
      let firstLoc := getLoc response
      if isRedirectStatus response.status && firstLoc ≠ [] then
        let st := followLoop http cfg.follow_redirects testUrl firstLoc
          { chain := [firstLoc], final := firstLoc, hdrs := response.headers, reqs := [] }
        if st.final ≠ [] && is_external_redirect url st.final payload then
          (some { vulnerable := true, url := testUrl, original_url := url,
                  parameter := some param, payload := payload,
                  method := some (S "URL Parameter"), status_code := some response.status,
                  first_location_header := some firstLoc, final_location := some st.final,
                  redirect_chain := st.chain, response_headers := some st.hdrs,
                  vulnerable_response_headers :=
                    if cfg.show_response_headers then some st.hdrs else none },
           req0 :: st.reqs)
        else
          (some { vulnerable := false, url := testUrl, original_url := url,
                  parameter := some param, payload := payload,
                  status_code := some response.status }, req0 :: st.reqs)
      else if response.status = 200 then
        let (f, rs) := body200Checks http cfg parsed testUrl url param payload response
        (f, req0 :: rs)
      else
        (some { vulnerable := false, url := testUrl, original_url := url,
                parameter := some param, payload := payload,
                status_code := some response.status }, [req0])

/-- scanner.test_header_injection (scanner.py:301-343): a single request
with the payload as the named header; a redirect whose Location
validates against the payload yields a vulnerable dictionary carrying
the raw Location, anything else the non-vulnerable dictionary. -/
def headerReq (url headerName payload : PyStr) : Request :=
  { method := S "GET", url := url, hdr := some (headerName, payload), allowRedirects := false }

def test_header_injection (http : Http) (cfg : Config) (url headerName payload : PyStr) :
    Option Finding × List Request :=
  let req : Request := headerReq url headerName payload
  match http req with
  | none => (none, [req])
  | some response =>
    let location := getLoc response
    if isRedirectStatus response.status && location ≠ []
        && validate_redirect url location (some payload) cfg.callback_url then
      (some { vulnerable := true, original_url := url, url := url,
              header_name := some headerName, payload := payload,
              method := some (S "Header Injection"), status_code := some response.status,
              final_location := some location, response_headers := headersDict response },
       [req])
    else
      (some { vulnerable := false, original_url := url, url := url,
              header_name := some headerName, payload := payload,
              status_code := some response.status,
              final_location := getHeaderOpt response.headers (S "Location"),
              response_headers := headersDict response }, [req])

inductive AttemptKind where
  | urlParam (param payload : PyStr)
  | headerInj (name payload : PyStr)
  | form (param payload : PyStr)
  | cookie (name payload : PyStr)
deriving Repr, DecidableEq

/-- One executed tester attempt: whether the tester produced a result for
it (False on transport failure or an escaping exception) and whether
that result was vulnerable. -/
structure TraceEntry where
  attempt : AttemptKind
  completed : Bool
  vulnerable : Bool
deriving Repr, DecidableEq

/-- scanner.test_form_redirects (scanner.py:345-440).  The initial GET
(which follows redirects at the transport level) and the form-tag check
are modelled; the first POST attempt then evaluates self.headers
(scanner.py:386), an attribute OpenRedirectScanner.__init__ never sets,
so Python raises AttributeError before issuing the request.  That
exception is not caught by the Timeout/RequestException handlers at
scanner.py:388-395 nor anywhere else in the tester or in
scan_single_url, which the None result models. -/
def test_form_redirects (http : Http) (cfg : Config) (url : PyStr) :
    List TraceEntry × Option (List Finding) :=
  let req0 : Request := { method := S "GET", url := url, allowRedirects := true }
  match http req0 with
  | none => ([], some [])
  | some r =>
    if r.status ≠ 200 then ([], some [])
    else if !containsSeq (S "<form") (pyLower r.body) then ([], some [])
    else
      ([{ attempt := .form (S "redirect_to") (S "http://evil.com"), completed := false,
          vulnerable := false }], none)

def cookie_names : List PyStr :=
  [S "redirect_url", S "redirect_uri", S "return_url", S "return_to", S "next_url",
   S "next", S "url_redirect", S "redirect", S "return", S "target", S "goto",
   S "location_cookie", S "dest", S "destination", S "redir_url", S "callback_url",
   S "redirect_after_login"]

def cookiePayloads (cfg : Config) : List PyStr :=
  if cfg.fast then [S "http://evil.com", S "//evil.com"]
  else [S "http://evil.com", S "//evil.com", S "javascript:alert(1)"]

/-- One cookie attempt (the body of the double loop at
scanner.py:455-517): probe with the cookie set, follow at most one
extra hop, and validate the final location against the payload. -/
def cookieAttempt (http : Http) (cfg : Config) (url name payload : PyStr) :
    TraceEntry × Option Finding :=
  let req : Request :=
    { method := S "GET", url := url, cookie := some (name, payload), allowRedirects := false }
  match http req with
  | none => ({ attempt := .cookie name payload, completed := false, vulnerable := false }, none)
  | some resp =>
    let loc := getLoc resp
    if isRedirectStatus resp.status && loc ≠ [] then
      let followed : List PyStr × PyStr :=
        match urljoinE url loc with
        | .error _ => ([loc], loc)
        | .ok resolved =>
          match http (mkGet resolved) with
          | none => ([loc], loc)
          | some fr =>
            if isRedirectStatus fr.status && getLoc fr ≠ [] then
              ([loc, getLoc fr], getLoc fr)
            else ([loc], loc)
      let (chain, finalLoc) := followed
      if validate_redirect url finalLoc (some payload) cfg.callback_url then
        ({ attempt := .cookie name payload, completed := true, vulnerable := true },
         some { vulnerable := true, original_url := url, url := url, cookie_name := some name,
                payload := payload, method := some (S "Cookie Redirect"),
                status_code := some resp.status, final_location := some finalLoc,
                redirect_chain := chain, response_headers := headersDict resp })
      else ({ attempt := .cookie name payload, completed := true, vulnerable := false }, none)
    else ({ attempt := .cookie name payload, completed := true, vulnerable := false }, none)

def cookieLoop (http : Http) (cfg : Config) (url : PyStr) :
    List (PyStr × PyStr) → List TraceEntry × List Finding
  | [] => ([], [])
  | (n, p) :: rest =>
    let (te, fo) := cookieAttempt http cfg url n p
    match fo with
    | some f =>
      if cfg.fast then ([te], [f])
      else
        let (ts, fs) := cookieLoop http cfg url rest
        (te :: ts, f :: fs)
    | none =>
      let (ts, fs) := cookieLoop http cfg url rest
      (te :: ts, fs)

/-- scanner.test_cookie_redirects (scanner.py:442-518): the double loop
over cookie names and payloads, collecting only vulnerable findings and
returning early on the first one in fast mode. -/
def test_cookie_redirects (http : Http) (cfg : Config) (url : PyStr) :
    List TraceEntry × List Finding :=
  cookieLoop http cfg url (cookie_names.flatMap fun n => (cookiePayloads cfg).map fun p => (n, p))

/-- The severity enrichment applied by scan_single_url to each vulnerable
result (scanner.py:752-764 and the analogous header/form/cookie
blocks): _determine_severity(original_url, payload, final_location);
when final_location is absent the call raises (None has no startswith)
and the handler substitutes the sentinel value. -/
def enrichSeverity (f : Finding) : Finding :=
  match f.final_location with
  | some fl => { f with severity := some (determine_severity f.original_url f.payload fl) }
  | none => { f with severity := some (S "ErrorDeterminingSeverity") }

/-- The inner payload loop of the URL-parameter phase
(scanner.py:748-775).  Returns accumulated results, the executed
attempts, the updated url_vulnerable_flag, and whether the phase
executed the fast-mode return at scanner.py:771-773. -/
def paramPayloadLoop (http : Http) (cfg : Config) (url param : PyStr) :
    List PyStr → Bool → List Finding × List TraceEntry × Bool × Bool
  | [], flag => ([], [], flag, false)
  | pl :: rest, flag =>
    match (test_url_parameter http cfg url param pl).1 with
    | none =>
      let (fs, ts, flag', ret) := paramPayloadLoop http cfg url param rest flag
      (fs, { attempt := .urlParam param pl, completed := false, vulnerable := false } :: ts,
       flag', ret)
    | some f =>
      if f.vulnerable then
        let f' := enrichSeverity f
        let te : TraceEntry := { attempt := .urlParam param pl, completed := true,
                                 vulnerable := true }
        if cfg.fast then ([f'], [te], true, true)
        else
          let (fs, ts, flag', ret) := paramPayloadLoop http cfg url param rest true
          (f' :: fs, te :: ts, flag', ret)
      else
        let (fs, ts, flag', ret) := paramPayloadLoop http cfg url param rest flag
        (f :: fs,
         { attempt := .urlParam param pl, completed := true, vulnerable := false } :: ts,
         flag', ret)

/-- The outer parameter loop of the URL-parameter phase
(scanner.py:744-775), including the fast-mode break at
scanner.py:745-746. -/
def paramLoop (http : Http) (cfg : Config) (url : PyStr) (payloads : List PyStr) :
    List PyStr → Bool → List Finding × List TraceEntry × Bool × Bool
  | [], flag => ([], [], flag, false)
  | p :: ps, flag =>
    if flag && cfg.fast then ([], [], flag, false)
    else
      let (fs, ts, flag', ret) := paramPayloadLoop http cfg url p payloads flag
      if ret then (fs, ts, flag', true)
      else
        let (fs2, ts2, flag'', ret2) := paramLoop http cfg url payloads ps flag'
        (fs ++ fs2, ts ++ ts2, flag'', ret2)

def header_names : List PyStr :=
  [S "Host", S "X-Forwarded-Host", S "X-Forwarded-For", S "X-Real-IP", S "X-Forwarded-Proto",
   S "X-Forwarded-Server", S "X-Host", S "X-HTTP-Host-Override", S "Referer", S "Origin",
   S "X-Original-URL", S "X-Rewrite-URL", S "CF-Connecting-IP"]

/-- The inner payload loop of the header phase (scanner.py:795-822). -/
def headerPayloadLoop (http : Http) (cfg : Config) (url hname : PyStr) :
    List PyStr → Bool → List Finding × List TraceEntry × Bool × Bool
  | [], flag => ([], [], flag, false)
  | pl :: rest, flag =>
    match (test_header_injection http cfg url hname pl).1 with
    | none =>
      let (fs, ts, flag', ret) := headerPayloadLoop http cfg url hname rest flag
      (fs, { attempt := .headerInj hname pl, completed := false, vulnerable := false } :: ts,
       flag', ret)
    | some f =>
      if f.vulnerable then
        let f' := enrichSeverity f
        let te : TraceEntry := { attempt := .headerInj hname pl, completed := true,
                                 vulnerable := true }
        if cfg.fast then ([f'], [te], true, true)
        else
          let (fs, ts, flag', ret) := headerPayloadLoop http cfg url hname rest true
          (f' :: fs, te :: ts, flag', ret)
      else
        let (fs, ts, flag', ret) := headerPayloadLoop http cfg url hname rest flag
        (f :: fs,
         { attempt := .headerInj hname pl, completed := true, vulnerable := false } :: ts,
         flag', ret)

/-- The outer header-name loop of the header phase (scanner.py:791-822). -/
def headerLoop (http : Http) (cfg : Config) (url : PyStr) (payloads : List PyStr) :
    List PyStr → Bool → List Finding × List TraceEntry × Bool × Bool
  | [], flag => ([], [], flag, false)
  | h :: hs, flag =>
    if flag && cfg.fast then ([], [], flag, false)
    else
      let (fs, ts, flag', ret) := headerPayloadLoop http cfg url h payloads flag
      if ret then (fs, ts, flag', true)
      else
        let (fs2, ts2, flag'', ret2) := headerLoop http cfg url payloads hs flag'
        (fs ++ fs2, ts ++ ts2, flag'', ret2)

/-- The dead fallback parameter list of scanner.py:722-730 (kept because
the source keeps it; extract_redirect_params never returns an empty
list). -/
def fallback_params : List PyStr :=
  [S "url", S "redirect", S "return", S "callback", S "next", S "target", S "goto", S "link",
   S "destination", S "forward", S "continue", S "redirect_url", S "redirect_uri",
   S "returnUrl", S "returnURL", S "return_url", S "backUrl", S "back_url", S "successUrl",
   S "success_url", S "failureUrl", S "failure_url", S "redirectTo", S "redirect_to",
   S "site", S "domain", S "host", S "location", S "path", S "page", S "ref", S "referer",
   S "source", S "from", S "origin", S "redir", S "exit", S "out", S "away", S "external"]

/-- scanner.scan_single_url (scanner.py:711-888).  The payload lists are
the sequences the PayloadManager collaborator supplies
(payload_manager.get_payloads() and get_header_payloads();
src/core/payloads.py is not part of the analysed sources, so they are
universally quantified inputs here).  The Except.error result models
the AttributeError escaping from test_form_redirects, which destroys
every result accumulated for the target; the trace lists the attempts
executed before control returned. -/
def scan_single_url (http : Http) (cfg : Config) (url : PyStr)
    (allPayloads headerPayloadsAll : List PyStr) : Except Unit (List Finding) × List TraceEntry :=
  let redirectParams0 := extract_redirect_params url
  let redirectParams := if redirectParams0 = [] then fallback_params else redirectParams0
  let effPayloads := if cfg.fast then allPayloads.take 3 else allPayloads
  let (rs1, t1, flag1, ret1) := paramLoop http cfg url effPayloads redirectParams false
  if ret1 then (.ok rs1, t1)
  else
    let (rs2, t2, _flag2, ret2) :=
      if cfg.headers_test then
        let effH := if cfg.fast then headerPayloadsAll.take 3 else headerPayloadsAll
        headerLoop http cfg url effH header_names flag1
      else ([], [], flag1, false)
    if ret2 then (.ok (rs1 ++ rs2), t1 ++ t2)
    else
      match test_form_redirects http cfg url with
      | (t3, none) => (.error (), t1 ++ t2 ++ t3)
      | (t3, some formList) =>
        let processedForm := formList.map fun f => if f.vulnerable then enrichSeverity f else f
        let anyFormVuln := formList.any fun f => f.vulnerable
        let rs3 := rs1 ++ rs2 ++ processedForm
        if cfg.fast && anyFormVuln then (.ok rs3, t1 ++ t2 ++ t3)
        else
          let (t4, cookieList) := test_cookie_redirects http cfg url
          let processedCookie := cookieList.map fun f => if f.vulnerable then enrichSeverity f else f
          (.ok (rs3 ++ processedCookie), t1 ++ t2 ++ t3 ++ t4)

/-- A synthetic server: the probe URL and each hop of
http://evil.com/a, /b redirect onward; /c exists only as a Location
value and is never served. -/
def c2http : Http := fun req =>
  if req.url = S "http://a.com/?next=http%3A%2F%2Fevil.com" then
    some { status := 302, headers := [(S "Location", S "http://evil.com/a")] }
  else if req.url = S "http://evil.com/a" then
    some { status := 302, headers := [(S "Location", S "http://evil.com/b")] }
  else if req.url = S "http://evil.com/b" then
    some { status := 302, headers := [(S "Location", S "http://evil.com/c")] }
  else none

/-- A server that answers the probe with a redirect straight to a
javascript: URI and serves nothing else. -/
def c3http : Http := fun req =>
  if req.url = S "http://a.com/?next=http%3A%2F%2Fevil.com" then
    some { status := 302, headers := [(S "Location", S "javascript:alert(1)")] }
  else none

/-- A server whose probe response is a 200 page carrying a meta-refresh
to the callback URL, and which answers the callback URL with 200. -/
def c4http : Http := fun req =>
  if req.url = S "http://a.com/?next=http%3A%2F%2Fother.com" then
    some { status := 200,
           body := S "<meta http-equiv=\"refresh\" content=\"0;url=http://evil.com\">" }
  else if req.url = S "http://evil.com" then
    some { status := 200 }
  else none

/-- A server that always answers 302 with a Location carrying a leading
space before javascript:. -/
def c10http : Http := fun _ =>
  some { status := 302, headers := [(S "Location", S " javascript:alert(1)")] }

def c8http : Http := fun req =>
  if req.url = S "http://a.com/?next=http%3A%2F%2Fevil.com" then
    some { status := 302, headers := [(S "Location", S "http://evil.com/a")] }
  else if req.url = S "http://evil.com/a" then
    some { status := 200 }
  else none

def isCookieAttempt : AttemptKind → Bool
  | .cookie _ _ => true
  | _ => false

def exceptLen : Except Unit (List Finding) → Option Nat
  | .error _ => none
  | .ok rs => some rs.length

def c9http : Http := fun _ => some { status := 200 }

def c9formhttp : Http := fun req =>
  if req.url = S "http://a.com/?next=x" then
    some { status := 200, body := S "<form action=x>" }
  else some { status := 200 }

/-! Helper lemmas about stripping and the script-scheme check. -/

theorem dropWhile_of_head_false {p : Char → Bool} {a : Char} {l : List Char}
    (h : p a = false) : (a :: l).dropWhile p = a :: l := by
  simp [List.dropWhile_cons, h]

theorem isPrefixOf_iff_exists {p s : PyStr} : p.isPrefixOf s = true ↔ ∃ t, p ++ t = s := by
  rw [List.isPrefixOf_iff_prefix]
  exact Iff.rfl

theorem dropWhile_all_false {p : Char → Bool} {l : List Char}
    (h : ∀ c ∈ l, p c = false) : l.dropWhile p = l := by
  cases l with
  | nil => rfl
  | cons a l => exact dropWhile_of_head_false (h a (by simp))

/-- If a non-empty pattern with no whitespace characters starts the
string, it still starts it after Python strip(), and the stripped
string is non-empty. -/
theorem pyStrip_keeps_head (p s : PyStr) (hne : p ≠ [])
    (hws : ∀ c ∈ p, isPySpace c = false) (hpre : p.isPrefixOf s = true) :
    p.isPrefixOf (pyStrip s) = true ∧ pyStrip s ≠ [] := by
  obtain ⟨t, ht⟩ := isPrefixOf_iff_exists.mp hpre
  obtain ⟨a, p', rfl⟩ : ∃ a p', p = a :: p' := by
    cases p with
    | nil => exact absurd rfl hne
    | cons a p' => exact ⟨a, p', rfl⟩
  subst ht
  have key : pyStrip (a :: p' ++ t) =
      (a :: p') ++ (t.reverse.dropWhile isPySpace).reverse := by
    unfold pyStrip
    rw [List.cons_append, dropWhile_of_head_false (hws a (by simp))]
    rw [List.reverse_cons, List.reverse_append, List.append_assoc, List.dropWhile_append]
    have htail : (p'.reverse ++ [a]).dropWhile isPySpace = p'.reverse ++ [a] := by
      apply dropWhile_all_false
      intro c hc
      rcases List.mem_append.mp hc with hc1 | hc2
      · exact hws c (by simp [List.mem_reverse.mp hc1])
      · simp at hc2; subst hc2; exact hws c (by simp)
    by_cases he : (t.reverse.dropWhile isPySpace).isEmpty
    · rw [if_pos he, htail, List.reverse_append]
      simp only [List.isEmpty_iff] at he
      simp [he]
    · rw [if_neg he, List.reverse_append, List.reverse_append, List.reverse_reverse]
      simp
  rw [key]
  constructor
  · exact List.isPrefixOf_iff_prefix.mpr ⟨_, rfl⟩
  · simp

/-- Script-scheme detection survives stripping. -/
theorem startsScript_pyStrip {s : PyStr} (h : startsScript s = true) :
    startsScript (pyStrip s) = true ∧ pyStrip s ≠ [] := by
  unfold startsScript at h ⊢
  simp only [List.any_eq_true] at h ⊢
  obtain ⟨pfx, hp, hpre⟩ := h
  have hcases : pfx = S "javascript:" ∨ pfx = S "data:" ∨ pfx = S "vbscript:" := by
    simpa [scriptSchemes] using hp
  have hws : ∀ c ∈ pfx, isPySpace c = false := by
    rcases hcases with rfl | rfl | rfl <;> decide
  have hne : pfx ≠ [] := by
    rcases hcases with rfl | rfl | rfl <;> decide
  obtain ⟨h1, h2⟩ := pyStrip_keeps_head pfx s hne hws hpre
  exact ⟨⟨pfx, hp, h1⟩, h2⟩

/-- C5 counterexample: a terminal that begins with javascript: only up to
letter case.  Python str.startswith is case-sensitive, the mixed-case
scheme is not matched, the parsed hostname is absent, and the validator
returns False — refuting the claimed case-insensitive comparison. -/
theorem C5_counterexample :
    (S "javascript:").isPrefixOf (pyLower (S "JavaScript:alert(1)")) = true ∧
    validate_redirect (S "http://a.com") (S "JavaScript:alert(1)")
      (some (S "http://evil.com")) none = false := by decide

/-- C5 (amended): for every terminal location string that begins,
compared case-sensitively, with the exact lower-case prefixes
javascript:, data: or vbscript:, validate_redirect returns True
immediately, for all values of original URL, payload and callback
host. -/
theorem C5_amended (original t : PyStr) (payload callback : Option PyStr)
    (h : startsScript t = true) :
    validate_redirect original t payload callback = true := by
  obtain ⟨h1, h2⟩ := startsScript_pyStrip h
  unfold validate_redirect
  simp [h1, h2]

/-- Witness for C5_amended at a concrete input. -/
theorem C5_amended_witness :
    startsScript (S "javascript:alert(1)") = true ∧
    validate_redirect (S "http://x.com") (S "javascript:alert(1)") (some (S "p")) none = true :=
  ⟨by decide, C5_amended (S "http://x.com") (S "javascript:alert(1)") (some (S "p")) none
    (by decide)⟩

/-- C1 counterexample: a terminal location with a leading space does not
begin with javascript:, data: or vbscript:, and its normalized host
does not exist, yet validate_redirect strips the whitespace first and
returns True — refuting the claimed equivalence for raw terminals. -/
theorem C1_counterexample :
    startsScript (S " javascript:alert(1)") = false ∧
    get_normalized_hostname_util (S " javascript:alert(1)") = none ∧
    validate_redirect (S "http://a.com") (S " javascript:alert(1)")
      (some (S "http://evil.com")) none = true := by decide

/-- C1 (amended): for terminals carrying no surrounding whitespace (so
that the validator's strip() is the identity) and not beginning with
javascript:, data: or vbscript:, with no callback configured,
validate_redirect returns True exactly when the terminal's normalized
host exists, equals the payload's normalized host and differs from the
original's normalized host; in particular a terminal whose host equals
the original's host yields False. -/
theorem C1_amended (o t p : PyStr) (hs : pyStrip t = t) (hns : startsScript t = false) :
    (validate_redirect o t (some p) none = true ↔
      ∃ h, get_normalized_hostname_util t = some h ∧
        get_normalized_hostname_util p = some h ∧
        get_normalized_hostname_util o ≠ some h) ∧
    (∀ h, get_normalized_hostname_util t = some h → get_normalized_hostname_util o = some h →
      validate_redirect o t (some p) none = false) := by
  unfold validate_redirect
  rw [hs]
  by_cases ht : t = []
  · subst ht
    simp [get_normalized_hostname_util]
  · rw [if_neg ht, if_neg (by simp [hns])]
    simp only [pyTruthy, gnhOpt, Bool.false_eq_true, if_false]
    cases hgt : get_normalized_hostname_util t with
    | none => simp [hgt]
    | some rh =>
      cases hgp : get_normalized_hostname_util p with
      | none => simp
      | some ph =>
        constructor
        · constructor
          · intro hb
            simp only [Bool.and_eq_true, decide_eq_true_eq] at hb
            exact ⟨rh, rfl, by rw [hb.1], by simpa [hb.1] using hb.2⟩
          · rintro ⟨h, hh1, hh2, hh3⟩
            injection hh1 with hh1
            injection hh2 with hh2
            subst hh1
            subst hh2
            simp [hh3]
        · intro h hh1 hh2
          injection hh1 with hh1
          subst hh1
          by_cases hrp : rh = ph
          · subst hrp
            simp [hh2]
          · simp [hrp]

/-- Witness for C1_amended at a concrete input: the validator confirms
the spec's positive example through the amended equivalence. -/
theorem C1_amended_witness :
    validate_redirect (S "http://a.com") (S "http://evil.com") (some (S "http://evil.com"))
      none = true :=
  ((C1_amended (S "http://a.com") (S "http://evil.com") (S "http://evil.com") (by decide)
    (by decide)).1).mpr ⟨S "evil.com", by decide, by decide, by decide⟩

/-! Structural lemmas for C6: the output of hostname normalization never
contains a slash and is non-empty, and any slash-free non-empty string
parses with an empty netloc and therefore normalizes to NoHost. -/

theorem pyLowerChar_eq_slash {c : Char} (h : pyLowerChar c = '/') : c = '/' := by
  unfold pyLowerChar at h
  split at h <;> first
    | exact h
    | exact absurd h (by decide)

theorem not_mem_pyLower_slash {l : PyStr} (h : ('/' : Char) ∉ l) : ('/' : Char) ∉ pyLower l := by
  intro hm
  obtain ⟨d, hd, hdeq⟩ := List.mem_map.mp hm
  exact h (pyLowerChar_eq_slash hdeq ▸ hd)

theorem urlsplitDefE_ok_netloc (d s : PyStr) (u : SplitResult)
    (hok : urlsplitDefE d s = .ok u) :
    ∀ c ∈ u.netloc, (c ≠ '/' ∧ c ≠ '?' ∧ c ≠ '#') := by
  simp only [urlsplitDefE] at hok
  split at hok
  · split at hok
    · cases hok
    · split at hok
      · split at hok
        · injection hok with hok
          subst hok
          intro c hc
          have := List.mem_takeWhile_imp hc
          simp only [netlocPred, Bool.and_eq_true, decide_eq_true_eq] at this
          exact ⟨this.1.1, this.1.2, this.2⟩
        · cases hok
      · injection hok with hok
        subst hok
        intro c hc
        have := List.mem_takeWhile_imp hc
        simp only [netlocPred, Bool.and_eq_true, decide_eq_true_eq] at this
        exact ⟨this.1.1, this.1.2, this.2⟩
  · injection hok with hok
    subst hok
    intro c hc
    simp at hc

theorem mem_afterLast {x c : Char} {s : PyStr} (h : x ∈ afterLast c s) : x ∈ s := by
  unfold afterLast at h
  rw [List.mem_reverse] at h
  have := (List.takeWhile_sublist _).subset h
  exact List.mem_reverse.mp this

theorem mem_pyPartition_fst {x c : Char} {s : PyStr} (h : x ∈ (pyPartition c s).1) : x ∈ s := by
  unfold pyPartition at h
  split at h
  · exact h
  · exact List.take_subset _ _ h

theorem mem_pyPartition_after {x c : Char} {s : PyStr} (h : x ∈ (pyPartition c s).2.2) :
    x ∈ s := by
  unfold pyPartition at h
  split at h
  · simp at h
  · exact List.drop_subset _ _ h

theorem mem_pyHostinfo_fst {x : Char} {netloc : PyStr} (h : x ∈ (pyHostinfo netloc).1) :
    x ∈ netloc := by
  simp only [pyHostinfo] at h
  split at h
  · exact mem_afterLast (mem_pyPartition_after (mem_pyPartition_fst h))
  · exact mem_afterLast (mem_pyPartition_fst h)

theorem pyHostinfo_nil : pyHostinfo [] = ([], []) := by decide

theorem pyHostname_netloc_nil {u : SplitResult} (h : u.netloc = []) : pyHostname u = none := by
  simp [pyHostname, h, pyHostinfo_nil]

theorem pyPartition_not_found {c : Char} {s : PyStr} (h : (pyPartition c s).2.1 ≠ true) :
    (pyPartition c s).1 = s := by
  unfold pyPartition at h ⊢
  split at h
  · rfl
  · simp at h

theorem pyHostname_facts {u : SplitResult} {h : PyStr} (hh : pyHostname u = some h)
    (hns : ('/' : Char) ∉ u.netloc) : ('/' : Char) ∉ h ∧ h ≠ [] := by
  have hpre_sub : ∀ x ∈ (pyPartition '%' (pyHostinfo u.netloc).1).1, x ∈ u.netloc :=
    fun x hx => mem_pyHostinfo_fst (mem_pyPartition_fst hx)
  have hzone_sub : ∀ x ∈ (pyPartition '%' (pyHostinfo u.netloc).1).2.2, x ∈ u.netloc :=
    fun x hx => mem_pyHostinfo_fst (mem_pyPartition_after hx)
  have hpre_noslash : ('/' : Char) ∉ pyLower (pyPartition '%' (pyHostinfo u.netloc).1).1 :=
    not_mem_pyLower_slash (fun hx => hns (hpre_sub _ hx))
  simp only [pyHostname] at hh
  split at hh
  · cases hh
  · rename_i h0ne
    split at hh
    · injection hh with hh
      subst hh
      refine ⟨?_, by simp⟩
      intro hm
      rcases List.mem_append.mp hm with h1 | h2
      · exact hpre_noslash h1
      · rcases List.mem_cons.mp h2 with h3 | h4
        · exact absurd h3 (by decide)
        · exact hns (hzone_sub _ h4)
    · injection hh with hh
      subst hh
      rename_i hnp
      refine ⟨hpre_noslash, ?_⟩
      intro hnil
      have hpre_nil : (pyPartition '%' (pyHostinfo u.netloc).1).1 = [] :=
        List.map_eq_nil_iff.mp hnil
      rw [pyPartition_not_found hnp] at hpre_nil
      exact h0ne hpre_nil

theorem mem_schemeStep_snd {x : Char} {d l : PyStr} (h : x ∈ (schemeStep d l).2) : x ∈ l := by
  unfold schemeStep at h
  split at h
  · split at h
    · exact List.drop_subset _ _ h
    · exact h
  · exact h

theorem mem_urlsplitPrep {x : Char} {s : PyStr} (h : x ∈ urlsplitPrep s) : x ∈ s := by
  unfold urlsplitPrep at h
  exact (List.dropWhile_sublist _).subset (List.mem_of_mem_filter h)

theorem urlsplitDefE_no_slash (s : PyStr) (hs : ('/' : Char) ∉ s) :
    ∃ u, urlsplitE s = .ok u ∧ u.netloc = [] := by
  have hurl2 : ∀ d : PyStr, ('/' : Char) ∉ (schemeStep d (urlsplitPrep s)).2 := by
    intro d hm
    exact hs (mem_urlsplitPrep (mem_schemeStep_snd hm))
  have hnp : ∀ d : PyStr, ¬ ((S "//").isPrefixOf (schemeStep d (urlsplitPrep s)).2 = true) := by
    intro d hp
    obtain ⟨t, ht⟩ := isPrefixOf_iff_exists.mp hp
    exact hurl2 d (by rw [← ht]; simp [S])
  have hmain : urlsplitE s = .ok
    ⟨(schemeStep (((([] : PyStr).dropWhile isC0OrSpace).reverse.dropWhile
          isC0OrSpace).reverse.filter (fun c => !isUnsafeUrlByte c)) (urlsplitPrep s)).1, [],
      (fragQuerySplit (schemeStep (((([] : PyStr).dropWhile isC0OrSpace).reverse.dropWhile
          isC0OrSpace).reverse.filter (fun c => !isUnsafeUrlByte c)) (urlsplitPrep s)).2).1,
      (fragQuerySplit (schemeStep (((([] : PyStr).dropWhile isC0OrSpace).reverse.dropWhile
          isC0OrSpace).reverse.filter (fun c => !isUnsafeUrlByte c)) (urlsplitPrep s)).2).2.1,
      (fragQuerySplit (schemeStep (((([] : PyStr).dropWhile isC0OrSpace).reverse.dropWhile
          isC0OrSpace).reverse.filter (fun c => !isUnsafeUrlByte c)) (urlsplitPrep s)).2).2.2⟩ := by
    simp only [urlsplitE, urlsplitDefE]
    rw [if_neg (hnp _)]
  exact ⟨_, hmain, rfl⟩

theorem gnhScannerE_some_src {s h : PyStr} (hg : gnhScannerE s = .ok (some h)) :
    ∃ u, urlsplitE s = .ok u ∧
      ((pyHostname u ≠ none ∧ h = pyLower u.netloc) ∨ pyHostname u = some h) := by
  unfold gnhScannerE at hg
  split at hg
  · cases hg
  · rename_i u hu
    refine ⟨u, hu, ?_⟩
    split at hg
    · cases hg
    · rename_i host hh
      split at hg
      · cases hg
      · split at hg
        · injection hg with hg
          injection hg with hg
          subst hg
          exact Or.inr hh
        · split at hg
          · injection hg with hg
            injection hg with hg
            exact Or.inl ⟨by simp [hh], hg.symm⟩
          · injection hg with hg
            injection hg with hg
            subst hg
            exact Or.inr hh

theorem gnh_no_slash {s : PyStr} (hne : s ≠ []) (hs : ('/' : Char) ∉ s) :
    get_normalized_hostname_util s = none := by
  obtain ⟨u, hu, hnl⟩ := urlsplitDefE_no_slash s hs
  have hsc : gnhScannerE s = .ok none := by
    simp only [gnhScannerE, hu, pyHostname_netloc_nil hnl]
  unfold get_normalized_hostname_util
  rw [if_neg hne, hsc]

/-- C6 counterexample: normalization strips the scheme, so its output no
longer parses as a URL with a host and a second application yields
NoHost rather than the same value. -/
theorem C6_counterexample :
    get_normalized_hostname_util (S "http://evil.com") = some (S "evil.com") ∧
    get_normalized_hostname_util (S "evil.com") = none := by decide

/-- C6 (amended): hostname normalization is not idempotent; instead, on
every input whose normalization yields a host, a second application
yields NoHost, because the normalized value is a bare host (with
optional port) containing no slash and therefore parses with an empty
network location. -/
theorem C6_amended (s h : PyStr) (hg : get_normalized_hostname_util s = some h) :
    get_normalized_hostname_util h = none := by
  have hsc : gnhScannerE s = .ok (some h) := by
    unfold get_normalized_hostname_util at hg
    split at hg
    · cases hg
    · split at hg
      · rename_i v hv
        rw [hg] at hv
        exact hv
      · cases hg
  obtain ⟨u, hu, hsrc⟩ := gnhScannerE_some_src hsc
  have hnsl : ('/' : Char) ∉ u.netloc := by
    intro hm
    exact ((urlsplitDefE_ok_netloc [] s u hu) '/' hm).1 rfl
  have hfacts : ('/' : Char) ∉ h ∧ h ≠ [] := by
    rcases hsrc with ⟨hhn, rfl⟩ | hhost
    · refine ⟨not_mem_pyLower_slash hnsl, ?_⟩
      intro hnil
      have hnl : u.netloc = [] := List.map_eq_nil_iff.mp hnil
      exact hhn (pyHostname_netloc_nil hnl)
    · exact pyHostname_facts hhost hnsl
  exact gnh_no_slash hfacts.2 hfacts.1

/-- Witness for C6_amended at a concrete input. -/
theorem C6_amended_witness :
    get_normalized_hostname_util (S "https://example.com:8443/x") =
      some (S "example.com:8443") ∧
    get_normalized_hostname_util (S "example.com:8443") = none :=
  ⟨by decide, C6_amended (S "https://example.com:8443/x") (S "example.com:8443") (by decide)⟩

/-- C7 counterexample: original http://a.com:80/ and terminal
http://a.com/x have the same normalized host+port (the default port 80
is stripped by the NormalizedHost definition), so the claim requires
Low, but _determine_severity compares raw lower-cased netlocs
("a.com:80" versus "a.com") and returns Medium. -/
theorem C7_counterexample :
    get_normalized_hostname_util (S "http://a.com:80/") = some (S "a.com") ∧
    get_normalized_hostname_util (S "http://a.com/x") = some (S "a.com") ∧
    startsScript (S "http://a.com/x") = false ∧
    is_external_redirect (S "http://a.com:80/") (S "http://a.com/x") (S "http://evil.com")
      = false ∧
    (S "http://").isPrefixOf (S "http://a.com/x") = true ∧
    determine_severity (S "http://a.com:80/") (S "http://evil.com") (S "http://a.com/x")
      = S "Medium" := by decide

/-- C7 (amended): when the terminal starts with http://, https:// or //
and neither High rule applies, the classifier compares the raw
lower-cased netlocs (ports included, default ports not stripped):
Medium exactly when the terminal netloc is non-empty and the original
netloc is empty or different, Low otherwise, and Low when either URL
fails to parse. -/
theorem C7_amended (o p f : PyStr)
    (h1 : startsScript f = false)
    (h2 : is_external_redirect o f p = false)
    (h3 : ((S "http://").isPrefixOf f || (S "https://").isPrefixOf f
      || (S "//").isPrefixOf f) = true) :
    determine_severity o p f =
      (match urlparseE o, urlparseE f with
       | .ok po, .ok pf =>
         if pyLower pf.netloc ≠ [] ∧ (pyLower po.netloc = [] ∨ pyLower po.netloc ≠ pyLower pf.netloc)
         then S "Medium" else S "Low"
       | _, _ => S "Low") := by
  unfold determine_severity
  rw [if_neg (by simp [h1]), if_neg (by simp [h2]), if_pos (by simpa using h3)]
  cases ho : urlparseE o with
  | error e => rfl
  | ok po =>
    cases hf : urlparseE f with
    | error e => rfl
    | ok pf =>
      by_cases hrn : pyLower pf.netloc = []
      · simp [hrn]
      · by_cases hon : pyLower po.netloc = []
        · simp [hrn, hon]
        · by_cases heq : pyLower po.netloc = pyLower pf.netloc
          · simp [hrn, hon, heq]
          · simp [hrn, hon, heq]

/-- Witness for C7_amended at a concrete input (off-site redirect to a
non-payload host classifies as Medium). -/
theorem C7_amended_witness :
    determine_severity (S "http://a.com") (S "http://evil.com") (S "http://b.com")
      = S "Medium" := by
  rw [C7_amended (S "http://a.com") (S "http://evil.com") (S "http://b.com") (by decide)
    (by decide) (by decide)]
  decide

theorem followLoop_chain_le (http : Http) (fuel : Nat) : ∀ base cur st,
    (followLoop http fuel base cur st).chain.length ≤ st.chain.length + fuel := by
  induction fuel with
  | zero =>
    intro base cur st
    simp [followLoop]
  | succ n ih =>
    intro base cur st
    simp only [followLoop]
    split
    · exact Nat.le_add_right _ _
    · split
      · exact Nat.le_add_right _ _
      · split
        · exact Nat.le_add_right _ _
        · split
          · exact Nat.le_add_right _ _
          · refine le_trans (ih _ _ _) ?_
            simp
            omega

theorem body200Checks_chain_le (http : Http) (cfg : Config) (parsed : ParseResult)
    (testUrl url param payload : PyStr) (response : Response) (f : Finding)
    (rs : List Request)
    (h : body200Checks http cfg parsed testUrl url param payload response = (some f, rs)) :
    f.redirect_chain.length ≤ 1 := by
  simp only [body200Checks] at h
  split at h
  · rename_i f0 rs0 heq
    simp only [Prod.mk.injEq, Option.some.injEq] at h
    obtain ⟨hf, hrs⟩ := h
    subst hf
    split at heq
    · split at heq
      · split at heq
        · simp at heq
        · split at heq
          · split at heq
            · split at heq
              · simp only [Prod.mk.injEq, Option.some.injEq] at heq
                obtain ⟨h1, h2⟩ := heq
                subst h1
                simp
              · simp at heq
            · simp at heq
          · simp at heq
      · simp at heq
    · simp at heq
  · rename_i rs0 heq
    split at h
    · simp at h
    · simp only [Prod.mk.injEq, Option.some.injEq] at h
      obtain ⟨h1, h2⟩ := h
      subst h1
      simp

theorem test_url_parameter_chain_le (http : Http) (cfg : Config) (url param payload : PyStr)
    (f : Finding) (reqs : List Request)
    (h : test_url_parameter http cfg url param payload = (some f, reqs)) :
    f.redirect_chain.length ≤ cfg.follow_redirects + 1 := by
  simp only [test_url_parameter] at h
  split at h
  · simp at h
  · split at h
    · simp at h
    · split at h
      · split at h
        · simp only [Prod.mk.injEq, Option.some.injEq] at h
          obtain ⟨h1, h2⟩ := h
          subst h1
          simp only []
          refine le_trans (followLoop_chain_le http cfg.follow_redirects _ _ _) ?_
          simp
          omega
        · simp only [Prod.mk.injEq, Option.some.injEq] at h
          obtain ⟨h1, h2⟩ := h
          subst h1
          simp
      · split at h
        · rename_i hst
          -- the 200 branch defers to body200Checks
          rcases hb : body200Checks http cfg _ _ url param payload _ with ⟨fo, rs2⟩
          rw [hb] at h
          simp only [Prod.mk.injEq] at h
          obtain ⟨h1, h2⟩ := h
          cases fo with
          | none => cases h1
          | some f0 =>
            injection h1 with h1
            subst h1
            exact le_trans (body200Checks_chain_le _ _ _ _ _ _ _ _ _ _ hb) (by omega)
        · simp only [Prod.mk.injEq, Option.some.injEq] at h
          obtain ⟨h1, h2⟩ := h
          subst h1
          simp

/-- C2 counterexample: with the hop budget set to 1, the collected
redirect chain has two entries — the claimed bound of at most max_hops
entries fails. -/
theorem C2_counterexample :
    ((test_url_parameter c2http { follow_redirects := 1 } (S "http://a.com/?next=x")
        (S "next") (S "http://evil.com")).1.map (fun f => f.redirect_chain)) =
      some [S "http://evil.com/a", S "http://evil.com/b"] ∧
    ¬ (2 ≤ 1) := by
  constructor
  · decide
  · omega

/-- C2 (amended): the redirect chain collected by test_url_parameter
never contains more than max_hops + 1 entries (the initial Location
plus at most max_hops follow-ups); and on a synthetic chain of exactly
max_hops + 1 redirecting responses the resolver issues exactly
max_hops follow-up requests and reports as terminal the last collected
Location value — the (max_hops + 1)-th — without requesting beyond
it. -/
theorem C2_amended :
    (∀ (http : Http) (cfg : Config) (url param payload : PyStr) (f : Finding)
      (reqs : List Request),
      test_url_parameter http cfg url param payload = (some f, reqs) →
      f.redirect_chain.length ≤ cfg.follow_redirects + 1) ∧
    (((test_url_parameter c2http { follow_redirects := 1 } (S "http://a.com/?next=x")
        (S "next") (S "http://evil.com")).1.map
          (fun f => (f.final_location, f.redirect_chain))) =
        some (some (S "http://evil.com/b"),
          [S "http://evil.com/a", S "http://evil.com/b"]) ∧
      ((test_url_parameter c2http { follow_redirects := 1 } (S "http://a.com/?next=x")
        (S "next") (S "http://evil.com")).2.map (fun r => r.url)) =
        [S "http://a.com/?next=http%3A%2F%2Fevil.com", S "http://evil.com/a"]) :=
  ⟨fun http cfg url param payload f reqs h =>
    test_url_parameter_chain_le http cfg url param payload f reqs h,
   by decide, by decide⟩

/-- Witness for the universally quantified bound of C2_amended at a
concrete input. -/
theorem C2_amended_witness :
    ∃ f reqs, test_url_parameter c2http { follow_redirects := 1 } (S "http://a.com/?next=x")
        (S "next") (S "http://evil.com") = (some f, reqs) ∧
      f.redirect_chain.length ≤ 1 + 1 := by
  rcases hr : test_url_parameter c2http { follow_redirects := 1 } (S "http://a.com/?next=x")
      (S "next") (S "http://evil.com") with ⟨fo, reqs⟩
  cases fo with
  | none =>
    exfalso
    have : (test_url_parameter c2http { follow_redirects := 1 } (S "http://a.com/?next=x")
        (S "next") (S "http://evil.com")).1.map (fun f => f.redirect_chain) =
        some [S "http://evil.com/a", S "http://evil.com/b"] := by decide
    rw [hr] at this
    cases this
  | some f =>
    exact ⟨f, reqs, rfl, C2_amended.1 c2http { follow_redirects := 1 } _ _ _ f reqs hr⟩

theorem is_external_redirect_no_host (o fin p : PyStr) (hg : gnhScannerE fin = .ok none) :
    is_external_redirect o fin p = false := by
  unfold is_external_redirect
  cases h1 : gnhScannerE o with
  | error e => rfl
  | ok oh =>
    simp only [hg]
    split <;> rfl

theorem body200Checks_method (http : Http) (cfg : Config) (parsed : ParseResult)
    (testUrl url param payload : PyStr) (response : Response) (f : Finding)
    (rs : List Request)
    (h : body200Checks http cfg parsed testUrl url param payload response = (some f, rs)) :
    f.method = none ∨ f.method = some (S "Meta Refresh") := by
  simp only [body200Checks] at h
  split at h
  · rename_i f0 rs0 heq
    simp only [Prod.mk.injEq, Option.some.injEq] at h
    obtain ⟨hf, hrs⟩ := h
    subst hf
    split at heq
    · split at heq
      · split at heq
        · simp at heq
        · split at heq
          · split at heq
            · split at heq
              · simp only [Prod.mk.injEq, Option.some.injEq] at heq
                obtain ⟨h1, h2⟩ := heq
                subst h1
                right
                rfl
              · simp at heq
            · simp at heq
          · simp at heq
      · simp at heq
    · simp at heq
  · rename_i rs0 heq
    split at h
    · simp at h
    · simp only [Prod.mk.injEq, Option.some.injEq] at h
      obtain ⟨h1, h2⟩ := h
      subst h1
      left
      rfl

/-- C3 counterexample: a 302 whose Location is javascript:alert(1)
terminates the chain at that script URI, yet the URL-parameter tester
reports vulnerable = false, because its HTTP path validates with
_is_external_redirect, which rejects hosts-less terminals. -/
theorem C3_counterexample :
    (followLoop c3http 5 (S "http://a.com/?next=http%3A%2F%2Fevil.com")
        (S "javascript:alert(1)")
        { chain := [S "javascript:alert(1)"], final := S "javascript:alert(1)",
          hdrs := [(S "Location", S "javascript:alert(1)")], reqs := [] }).final =
      S "javascript:alert(1)" ∧
    startsScript (S "javascript:alert(1)") = true ∧
    ((test_url_parameter c3http {} (S "http://a.com/?next=x") (S "next")
        (S "http://evil.com")).1.map (fun f => f.vulnerable)) = some false := by decide

/-- C3 (amended): the HTTP-redirect path of the URL-parameter tester
marks a result vulnerable only when _is_external_redirect accepts the
terminal, and _is_external_redirect returns false for every terminal
whose parsed hostname is absent — script/data URIs without a //
authority included.  A chain ending in javascript:alert(1) is
therefore reported NOT vulnerable by this tester. -/
theorem C3_amended :
    (∀ o fin p : PyStr, gnhScannerE fin = .ok none → is_external_redirect o fin p = false) ∧
    (∀ (http : Http) (cfg : Config) (url param payload : PyStr) (f : Finding)
      (reqs : List Request),
      test_url_parameter http cfg url param payload = (some f, reqs) →
      f.vulnerable = true → f.method = some (S "URL Parameter") →
      ∃ fl, f.final_location = some fl ∧ is_external_redirect url fl payload = true) := by
  constructor
  · exact is_external_redirect_no_host
  · intro http cfg url param payload f reqs h hvuln hmeth
    simp only [test_url_parameter] at h
    split at h
    · simp at h
    · split at h
      · simp at h
      · split at h
        · split at h
          · rename_i hcond
            simp only [Prod.mk.injEq, Option.some.injEq] at h
            obtain ⟨h1, h2⟩ := h
            subst h1
            refine ⟨_, rfl, ?_⟩
            simp only [Bool.and_eq_true] at hcond
            exact hcond.2
          · simp only [Prod.mk.injEq, Option.some.injEq] at h
            obtain ⟨h1, h2⟩ := h
            subst h1
            cases hvuln
        · split at h
          · rcases hb : body200Checks http cfg _ _ url param payload _ with ⟨fo, rs2⟩
            rw [hb] at h
            simp only [Prod.mk.injEq] at h
            obtain ⟨h1, h2⟩ := h
            cases fo with
            | none => cases h1
            | some f0 =>
              injection h1 with h1
              subst h1
              rcases body200Checks_method _ _ _ _ _ _ _ _ _ _ hb with hm | hm
              · rw [hmeth] at hm
                cases hm
              · rw [hmeth] at hm
                injection hm with hm
                exact absurd hm (by decide)
          · simp only [Prod.mk.injEq, Option.some.injEq] at h
            obtain ⟨h1, h2⟩ := h
            subst h1
            cases hvuln

/-- Witness for C3_amended, extracting the concrete external-redirect
fact from the synthetic vulnerable run. -/
theorem C3_amended_witness :
    is_external_redirect (S "http://a.com/?next=x") (S "http://evil.com/b")
      (S "http://evil.com") = true := by
  rcases hr : test_url_parameter c2http { follow_redirects := 1 } (S "http://a.com/?next=x")
      (S "next") (S "http://evil.com") with ⟨fo, reqs⟩
  have hv : fo.map (fun f => (f.vulnerable, f.method, f.final_location)) =
      some (true, some (S "URL Parameter"), some (S "http://evil.com/b")) := by
    have hd : (test_url_parameter c2http { follow_redirects := 1 } (S "http://a.com/?next=x")
        (S "next") (S "http://evil.com")).1.map
          (fun f => (f.vulnerable, f.method, f.final_location)) =
        some (true, some (S "URL Parameter"), some (S "http://evil.com/b")) := by decide
    rw [hr] at hd
    exact hd
  cases fo with
  | none => cases hv
  | some f =>
    injection hv with hv
    simp only [Prod.mk.injEq] at hv
    obtain ⟨hv1, hv2, hv3⟩ := hv
    obtain ⟨fl, hfl, hext⟩ := C3_amended.2 c2http { follow_redirects := 1 } _ _ _ f reqs hr
      hv1 hv2
    rw [hv3] at hfl
    injection hfl with hfl
    rw [hfl]
    exact hext

/-- C4 failing input, evaluated: the meta-refresh candidate is extracted,
the one-request follow-up returns 200 (the request log shows it was
issued), and the Validator call as written at scanner.py:225 returns
True — yet the tester returns a non-vulnerable result with no method,
because the dictionary's severity field calls _determine_severity with
two arguments (scanner.py:236) while the method requires three, and
the TypeError is swallowed by the handler at scanner.py:238. -/
theorem C4_code_bug :
    searchFirst metaToks
      (pyLower (S "<meta http-equiv=\"refresh\" content=\"0;url=http://evil.com\">")) =
      some (S "http://evil.com") ∧
    c4http (mkGet (S "http://evil.com")) = some { status := 200 } ∧
    validate_redirect (S "http://other.com") (S "http://evil.com")
      (some (S "http://evil.com")) none = true ∧
    determineSeverityTwoArgs (S "http://other.com") (S "http://evil.com") = .error () ∧
    ((test_url_parameter c4http { callback_url := some (S "http://evil.com") }
        (S "http://a.com/?next=x") (S "next") (S "http://other.com")).1.map
          (fun f => (f.vulnerable, f.method))) = some (false, none) ∧
    ((test_url_parameter c4http { callback_url := some (S "http://evil.com") }
        (S "http://a.com/?next=x") (S "next") (S "http://other.com")).2.map
          (fun r => r.url)) =
      [S "http://a.com/?next=http%3A%2F%2Fother.com", S "http://evil.com"] := by decide

theorem validate_redirect_true_src {o t : PyStr} {pv cb : Option PyStr}
    (h : validate_redirect o t pv cb = true) :
    get_normalized_hostname_util (pyStrip t) ≠ none ∨ startsScript (pyStrip t) = true := by
  simp only [validate_redirect] at h
  split at h
  · cases h
  · split at h
    · rename_i hss
      exact Or.inr hss
    · left
      intro hnone
      rw [hnone] at h
      simp at h

/-- C10 counterexample: the Location value " javascript:alert(1)" has no
parseable host and does not begin with javascript:, data: or
vbscript:, yet the header tester reports it vulnerable, because
validate_redirect strips the value before its scheme check. -/
theorem C10_counterexample :
    get_normalized_hostname_util (S " javascript:alert(1)") = none ∧
    startsScript (S " javascript:alert(1)") = false ∧
    ((test_header_injection c10http {} (S "http://a.com") (S "Host")
        (S "http://evil.com")).1.map (fun f => (f.vulnerable, f.final_location))) =
      some (true, some (S " javascript:alert(1)")) := by decide

/-- C10 (amended): the header tester issues exactly one request per
(header, payload) attempt and never follows the chain; every result it
returns carries the raw response Location (the vulnerable dictionary
stores headers.get('Location', ''), the non-vulnerable one
headers.get('Location')); and a vulnerable result requires the
whitespace-stripped Location either to have a parseable host or to
begin with javascript:, data: or vbscript:. -/
theorem C10_amended (http : Http) (cfg : Config) (url hname payload : PyStr) :
    (test_header_injection http cfg url hname payload).2 = [headerReq url hname payload] ∧
    ∀ f, (test_header_injection http cfg url hname payload).1 = some f →
      ∃ r, http (headerReq url hname payload) = some r ∧
        (f.vulnerable = true →
          f.final_location = some (getLoc r) ∧
          (get_normalized_hostname_util (pyStrip (getLoc r)) ≠ none ∨
            startsScript (pyStrip (getLoc r)) = true)) ∧
        (f.vulnerable = false → f.final_location = getHeaderOpt r.headers (S "Location")) := by
  constructor
  · rcases hq : http (headerReq url hname payload) with _ | r <;>
      simp only [test_header_injection, hq] <;> (try rfl) <;> split <;> rfl
  · intro f hf
    rcases hq : http (headerReq url hname payload) with _ | r
    · simp only [test_header_injection, hq] at hf
      cases hf
    · simp only [test_header_injection, hq] at hf
      refine ⟨r, rfl, ?_⟩
      split at hf
      · rename_i hcond
        simp only [Option.some.injEq] at hf
        subst hf
        simp only [Bool.and_eq_true] at hcond
        refine ⟨fun _ => ⟨rfl, validate_redirect_true_src hcond.2⟩, ?_⟩
        intro hfalse
        cases hfalse
      · simp only [Option.some.injEq] at hf
        subst hf
        exact ⟨(fun htrue => by cases htrue), fun _ => rfl⟩

/-- Witness for C10_amended at a concrete input. -/
theorem C10_amended_witness :
    (test_header_injection c10http {} (S "http://a.com") (S "Host")
        (S "http://evil.com")).2 =
      [headerReq (S "http://a.com") (S "Host") (S "http://evil.com")] ∧
    ∃ r f, c10http (headerReq (S "http://a.com") (S "Host") (S "http://evil.com")) = some r ∧
      (test_header_injection c10http {} (S "http://a.com") (S "Host")
        (S "http://evil.com")).1 = some f ∧
      f.final_location = some (getLoc r) := by
  have h := C10_amended c10http {} (S "http://a.com") (S "Host") (S "http://evil.com")
  refine ⟨h.1, ?_⟩
  rcases hres : (test_header_injection c10http {} (S "http://a.com") (S "Host")
      (S "http://evil.com")).1 with _ | f
  · exfalso
    have hd : ((test_header_injection c10http {} (S "http://a.com") (S "Host")
        (S "http://evil.com")).1.map (fun f => f.vulnerable)) = some true := by decide
    rw [hres] at hd
    cases hd
  · obtain ⟨r, hr, himp, _⟩ := h.2 f hres
    have hv : f.vulnerable = true := by
      have hd : ((test_header_injection c10http {} (S "http://a.com") (S "Host")
          (S "http://evil.com")).1.map (fun f => f.vulnerable)) = some true := by decide
      rw [hres] at hd
      injection hd
    exact ⟨r, f, hr, rfl, (himp hv).1⟩

/-! Helper lemmas for the orchestration theorems. -/

theorem mem_dropLast {α : Type} {e : α} : ∀ {l : List α}, e ∈ l.dropLast → e ∈ l
  | [], h => by simp at h
  | [a], h => by simp at h
  | a :: b :: l, h => by
    rw [List.dropLast_cons₂] at h
    rcases List.mem_cons.mp h with rfl | h'
    · exact List.mem_cons_self _ _
    · exact List.mem_cons_of_mem a (mem_dropLast h')

theorem dropLast_append_cons' {α : Type} (l1 : List α) (b : α) (l2 : List α) :
    (l1 ++ b :: l2).dropLast = l1 ++ (b :: l2).dropLast := by
  induction l1 with
  | nil => rfl
  | cons a l1 ih =>
    cases l1 with
    | nil => cases l2 <;> rfl
    | cons c l1 => simpa [List.dropLast_cons₂] using ih

theorem mem_dropLast_append {α : Type} {e : α} {l1 l2 : List α}
    (h : e ∈ (l1 ++ l2).dropLast) : e ∈ l1 ∨ e ∈ l2.dropLast := by
  cases l2 with
  | nil =>
    rw [List.append_nil] at h
    exact Or.inl (mem_dropLast h)
  | cons b t =>
    rw [dropLast_append_cons'] at h
    rcases List.mem_append.mp h with h1 | h2
    · exact Or.inl h1
    · exact Or.inr h2

theorem all_not_of_any_false {α : Type} {p : α → Bool} {l : List α} (h : l.any p = false) :
    ∀ x ∈ l, p x = false := by
  intro x hx
  by_contra hb
  have hpx : p x = true := by
    cases hpx : p x with
    | false => exact absurd hpx hb
    | true => rfl
  have := List.any_eq_true.mpr ⟨x, hx, hpx⟩
  rw [h] at this
  cases this

theorem getLast?_cons_of_ne_nil {α : Type} (a : α) {l : List α} (h : l ≠ []) :
    (a :: l).getLast? = l.getLast? := by
  cases l with
  | nil => exact absurd rfl h
  | cons b t => exact List.getLast?_cons_cons

theorem ne_nil_of_getLast?_some {α : Type} {l : List α} {a : α} (h : l.getLast? = some a) :
    l ≠ [] := by
  intro hl
  subst hl
  cases h

/-- A finding survives severity enrichment with its vulnerable flag
unchanged. -/
theorem enrich_keeps_vulnerable (f : Finding) :
    ((if f.vulnerable then enrichSeverity f else f).vulnerable) = f.vulnerable := by
  split
  · unfold enrichSeverity
    split <;> rfl
  · rfl

theorem enrichSeverity_vulnerable (f : Finding) :
    (enrichSeverity f).vulnerable = f.vulnerable := by
  unfold enrichSeverity
  split <;> rfl

theorem paramPayloadLoop_fast (http : Http) (cfg : Config) (url param : PyStr)
    (hfast : cfg.fast = true) :
    ∀ (pls : List PyStr) (flag : Bool) (fs : List Finding) (ts : List TraceEntry)
      (flag' ret : Bool),
      paramPayloadLoop http cfg url param pls flag = (fs, ts, flag', ret) →
      (∀ e ∈ ts.dropLast, e.vulnerable = false) ∧
      (ts.any (fun e => e.vulnerable) = true → ret = true) ∧
      (ret = true →
        (∃ f, fs.getLast? = some f ∧ f.vulnerable = true) ∧
        (∃ e, ts.getLast? = some e ∧ e.vulnerable = true)) := by
  intro pls
  induction pls with
  | nil =>
    intro flag fs ts flag' ret h
    simp only [paramPayloadLoop, Prod.mk.injEq] at h
    obtain ⟨h1, h2, h3, h4⟩ := h
    subst h1
    subst h2
    subst h4
    refine ⟨by simp, by simp, ?_⟩
    intro hret
    cases hret
  | cons pl rest ih =>
    intro flag fs ts flag' ret h
    simp only [paramPayloadLoop] at h
    split at h
    · -- tester returned None for this attempt
      rcases hrec : paramPayloadLoop http cfg url param rest flag with ⟨fs0, ts0, flag0, ret0⟩
      rw [hrec] at h
      simp only [Prod.mk.injEq] at h
      obtain ⟨h1, h2, h3, h4⟩ := h
      subst h1
      subst h2
      subst h4
      obtain ⟨ih1, ih2, ih3⟩ := ih flag fs0 ts0 flag0 ret0 hrec
      refine ⟨?_, ?_, ?_⟩
      · intro e he
        rcases @mem_dropLast_append _ _ [_] _ he with h5 | h5
        · simp at h5
          subst h5
          rfl
        · exact ih1 e h5
      · intro hany
        simp only [List.any_cons] at hany
        exact ih2 (by simpa using hany)
      · intro hret
        obtain ⟨⟨f, hf1, hf2⟩, ⟨e, he1, he2⟩⟩ := ih3 hret
        exact ⟨⟨f, hf1, hf2⟩,
          ⟨e, by rw [getLast?_cons_of_ne_nil _ (ne_nil_of_getLast?_some he1)]; exact he1, he2⟩⟩
    · rename_i f0 hres
      split at h
      · -- vulnerable result; fast mode returns immediately
        rename_i hv
        simp only [Prod.mk.injEq] at h
        obtain ⟨h1, h2, h3, h4⟩ := h
        subst h1
        subst h2
        subst h4
        refine ⟨by simp, fun _ => rfl, ?_⟩
        intro _
        exact ⟨⟨enrichSeverity f0, by simp, by rw [enrichSeverity_vulnerable]; exact hv⟩,
          ⟨_, rfl, rfl⟩⟩
      · -- non-vulnerable result appended, loop continues
        rename_i hnv
        rcases hrec : paramPayloadLoop http cfg url param rest flag with ⟨fs0, ts0, flag0, ret0⟩
        rw [hrec] at h
        simp only [Prod.mk.injEq] at h
        obtain ⟨h1, h2, h3, h4⟩ := h
        subst h1
        subst h2
        subst h4
        obtain ⟨ih1, ih2, ih3⟩ := ih flag fs0 ts0 flag0 ret0 hrec
        refine ⟨?_, ?_, ?_⟩
        · intro e he
          rcases @mem_dropLast_append _ _ [_] _ he with h5 | h5
          · simp at h5
            subst h5
            rfl
          · exact ih1 e h5
        · intro hany
          simp only [List.any_cons] at hany
          exact ih2 (by simpa using hany)
        · intro hret
          obtain ⟨⟨f, hf1, hf2⟩, ⟨e, he1, he2⟩⟩ := ih3 hret
          exact ⟨⟨f, by rw [getLast?_cons_of_ne_nil _ (ne_nil_of_getLast?_some hf1)]; exact hf1,
              hf2⟩,
            ⟨e, by rw [getLast?_cons_of_ne_nil _ (ne_nil_of_getLast?_some he1)]; exact he1, he2⟩⟩

theorem getLast?_append_of_some {α : Type} {l2 : List α} {a : α} (l1 : List α)
    (h : l2.getLast? = some a) : (l1 ++ l2).getLast? = some a := by
  induction l1 with
  | nil => simpa using h
  | cons b l1 ih =>
    rw [List.cons_append, getLast?_cons_of_ne_nil]
    · exact ih
    · intro hnil
      rcases List.append_eq_nil.mp hnil with ⟨h1, h2⟩
      subst h2
      cases h

theorem getLast?_map {α β : Type} (g : α → β) (l : List α) :
    (l.map g).getLast? = l.getLast?.map g := by
  induction l with
  | nil => rfl
  | cons a l ih =>
    cases l with
    | nil => rfl
    | cons b t =>
      rw [List.map_cons, getLast?_cons_of_ne_nil _ (by simp), ih,
          getLast?_cons_of_ne_nil a (show b :: t ≠ [] by simp)]

/-- Fast-mode invariant of the header-phase inner payload loop: only the
last executed attempt can be vulnerable, any vulnerable attempt sets the
early-return flag, and the early return carries the vulnerable finding
in last position. -/
theorem headerPayloadLoop_fast (http : Http) (cfg : Config) (url hname : PyStr)
    (hfast : cfg.fast = true) :
    ∀ (pls : List PyStr) (flag : Bool) (fs : List Finding) (ts : List TraceEntry)
      (flag' ret : Bool),
      headerPayloadLoop http cfg url hname pls flag = (fs, ts, flag', ret) →
      (∀ e ∈ ts.dropLast, e.vulnerable = false) ∧
      (ts.any (fun e => e.vulnerable) = true → ret = true) ∧
      (ret = true →
        (∃ f, fs.getLast? = some f ∧ f.vulnerable = true) ∧
        (∃ e, ts.getLast? = some e ∧ e.vulnerable = true)) := by
  intro pls
  induction pls with
  | nil =>
    intro flag fs ts flag' ret h
    simp only [headerPayloadLoop, Prod.mk.injEq] at h
    obtain ⟨h1, h2, h3, h4⟩ := h
    subst h1
    subst h2
    subst h4
    refine ⟨by simp, by simp, ?_⟩
    intro hret
    cases hret
  | cons pl rest ih =>
    intro flag fs ts flag' ret h
    simp only [headerPayloadLoop] at h
    split at h
    · rcases hrec : headerPayloadLoop http cfg url hname rest flag with ⟨fs0, ts0, flag0, ret0⟩
      rw [hrec] at h
      simp only [Prod.mk.injEq] at h
      obtain ⟨h1, h2, h3, h4⟩ := h
      subst h1
      subst h2
      subst h4
      obtain ⟨ih1, ih2, ih3⟩ := ih flag fs0 ts0 flag0 ret0 hrec
      refine ⟨?_, ?_, ?_⟩
      · intro e he
        rcases @mem_dropLast_append _ _ [_] _ he with h5 | h5
        · simp at h5
          subst h5
          rfl
        · exact ih1 e h5
      · intro hany
        simp only [List.any_cons] at hany
        exact ih2 (by simpa using hany)
      · intro hret
        obtain ⟨⟨f, hf1, hf2⟩, ⟨e, he1, he2⟩⟩ := ih3 hret
        exact ⟨⟨f, hf1, hf2⟩,
          ⟨e, by rw [getLast?_cons_of_ne_nil _ (ne_nil_of_getLast?_some he1)]; exact he1, he2⟩⟩
    · rename_i f0 hres
      split at h
      · rename_i hv
        simp only [Prod.mk.injEq] at h
        obtain ⟨h1, h2, h3, h4⟩ := h
        subst h1
        subst h2
        subst h4
        refine ⟨by simp, fun _ => rfl, ?_⟩
        intro _
        exact ⟨⟨enrichSeverity f0, by simp, by rw [enrichSeverity_vulnerable]; exact hv⟩,
          ⟨_, rfl, rfl⟩⟩
      · rename_i hnv
        rcases hrec : headerPayloadLoop http cfg url hname rest flag with ⟨fs0, ts0, flag0, ret0⟩
        rw [hrec] at h
        simp only [Prod.mk.injEq] at h
        obtain ⟨h1, h2, h3, h4⟩ := h
        subst h1
        subst h2
        subst h4
        obtain ⟨ih1, ih2, ih3⟩ := ih flag fs0 ts0 flag0 ret0 hrec
        refine ⟨?_, ?_, ?_⟩
        · intro e he
          rcases @mem_dropLast_append _ _ [_] _ he with h5 | h5
          · simp at h5
            subst h5
            rfl
          · exact ih1 e h5
        · intro hany
          simp only [List.any_cons] at hany
          exact ih2 (by simpa using hany)
        · intro hret
          obtain ⟨⟨f, hf1, hf2⟩, ⟨e, he1, he2⟩⟩ := ih3 hret
          exact ⟨⟨f, by rw [getLast?_cons_of_ne_nil _ (ne_nil_of_getLast?_some hf1)]; exact hf1,
              hf2⟩,
            ⟨e, by rw [getLast?_cons_of_ne_nil _ (ne_nil_of_getLast?_some he1)]; exact he1, he2⟩⟩

/-- Fast-mode invariant of the parameter-phase outer loop over redirect
parameters. -/
theorem paramLoop_fast (http : Http) (cfg : Config) (url : PyStr) (payloads : List PyStr)
    (hfast : cfg.fast = true) :
    ∀ (ps : List PyStr) (flag : Bool) (fs : List Finding) (ts : List TraceEntry)
      (flag' ret : Bool),
      paramLoop http cfg url payloads ps flag = (fs, ts, flag', ret) →
      (∀ e ∈ ts.dropLast, e.vulnerable = false) ∧
      (ts.any (fun e => e.vulnerable) = true → ret = true) ∧
      (ret = true →
        (∃ f, fs.getLast? = some f ∧ f.vulnerable = true) ∧
        (∃ e, ts.getLast? = some e ∧ e.vulnerable = true)) := by
  intro ps
  induction ps with
  | nil =>
    intro flag fs ts flag' ret h
    simp only [paramLoop, Prod.mk.injEq] at h
    obtain ⟨h1, h2, h3, h4⟩ := h
    subst h1
    subst h2
    subst h4
    refine ⟨by simp, by simp, ?_⟩
    intro hret
    cases hret
  | cons p psr ih =>
    intro flag fs ts flag' ret h
    simp only [paramLoop] at h
    split at h
    · -- early skip when the flag is set in fast mode
      simp only [Prod.mk.injEq] at h
      obtain ⟨h1, h2, h3, h4⟩ := h
      subst h1
      subst h2
      subst h4
      refine ⟨by simp, by simp, ?_⟩
      intro hret
      cases hret
    · rcases hinner : paramPayloadLoop http cfg url p payloads flag with ⟨fs0, ts0, flag0, ret0⟩
      rw [hinner] at h
      simp only [] at h
      obtain ⟨p1, p2, p3⟩ :=
        paramPayloadLoop_fast http cfg url p hfast payloads flag fs0 ts0 flag0 ret0 hinner
      split at h
      · -- inner loop requested the early return
        rename_i hr0
        simp only [Prod.mk.injEq] at h
        obtain ⟨h1, h2, h3, h4⟩ := h
        subst h1
        subst h2
        subst h4
        exact ⟨p1, fun _ => rfl, fun _ => p3 hr0⟩
      · rename_i hr0
        rcases houter : paramLoop http cfg url payloads psr flag0 with ⟨fs2, ts2, flag2, ret2⟩
        rw [houter] at h
        simp only [Prod.mk.injEq] at h
        obtain ⟨h1, h2, h3, h4⟩ := h
        subst h1
        subst h2
        subst h4
        obtain ⟨q1, q2, q3⟩ := ih flag0 fs2 ts2 flag2 ret2 houter
        have hts0 : ts0.any (fun e => e.vulnerable) = false := by
          cases hany : ts0.any (fun e => e.vulnerable) with
          | false => rfl
          | true => exact absurd (p2 hany) hr0
        have hts0' := all_not_of_any_false hts0
        refine ⟨?_, ?_, ?_⟩
        · intro e he
          rcases mem_dropLast_append he with h5 | h5
          · exact hts0' e h5
          · exact q1 e h5
        · intro hany
          simp only [List.any_append, Bool.or_eq_true] at hany
          rcases hany with h5 | h5
          · rw [hts0] at h5
            cases h5
          · exact q2 h5
        · intro hret
          obtain ⟨⟨f, hf1, hf2⟩, ⟨e, he1, he2⟩⟩ := q3 hret
          exact ⟨⟨f, getLast?_append_of_some _ hf1, hf2⟩,
            ⟨e, getLast?_append_of_some _ he1, he2⟩⟩

/-- Fast-mode invariant of the header-phase outer loop over header
names. -/
theorem headerLoop_fast (http : Http) (cfg : Config) (url : PyStr) (payloads : List PyStr)
    (hfast : cfg.fast = true) :
    ∀ (hs : List PyStr) (flag : Bool) (fs : List Finding) (ts : List TraceEntry)
      (flag' ret : Bool),
      headerLoop http cfg url payloads hs flag = (fs, ts, flag', ret) →
      (∀ e ∈ ts.dropLast, e.vulnerable = false) ∧
      (ts.any (fun e => e.vulnerable) = true → ret = true) ∧
      (ret = true →
        (∃ f, fs.getLast? = some f ∧ f.vulnerable = true) ∧
        (∃ e, ts.getLast? = some e ∧ e.vulnerable = true)) := by
  intro hs
  induction hs with
  | nil =>
    intro flag fs ts flag' ret h
    simp only [headerLoop, Prod.mk.injEq] at h
    obtain ⟨h1, h2, h3, h4⟩ := h
    subst h1
    subst h2
    subst h4
    refine ⟨by simp, by simp, ?_⟩
    intro hret
    cases hret
  | cons hn hsr ih =>
    intro flag fs ts flag' ret h
    simp only [headerLoop] at h
    split at h
    · simp only [Prod.mk.injEq] at h
      obtain ⟨h1, h2, h3, h4⟩ := h
      subst h1
      subst h2
      subst h4
      refine ⟨by simp, by simp, ?_⟩
      intro hret
      cases hret
    · rcases hinner : headerPayloadLoop http cfg url hn payloads flag with ⟨fs0, ts0, flag0, ret0⟩
      rw [hinner] at h
      simp only [] at h
      obtain ⟨p1, p2, p3⟩ :=
        headerPayloadLoop_fast http cfg url hn hfast payloads flag fs0 ts0 flag0 ret0 hinner
      split at h
      · rename_i hr0
        simp only [Prod.mk.injEq] at h
        obtain ⟨h1, h2, h3, h4⟩ := h
        subst h1
        subst h2
        subst h4
        exact ⟨p1, fun _ => rfl, fun _ => p3 hr0⟩
      · rename_i hr0
        rcases houter : headerLoop http cfg url payloads hsr flag0 with ⟨fs2, ts2, flag2, ret2⟩
        rw [houter] at h
        simp only [Prod.mk.injEq] at h
        obtain ⟨h1, h2, h3, h4⟩ := h
        subst h1
        subst h2
        subst h4
        obtain ⟨q1, q2, q3⟩ := ih flag0 fs2 ts2 flag2 ret2 houter
        have hts0 : ts0.any (fun e => e.vulnerable) = false := by
          cases hany : ts0.any (fun e => e.vulnerable) with
          | false => rfl
          | true => exact absurd (p2 hany) hr0
        have hts0' := all_not_of_any_false hts0
        refine ⟨?_, ?_, ?_⟩
        · intro e he
          rcases mem_dropLast_append he with h5 | h5
          · exact hts0' e h5
          · exact q1 e h5
        · intro hany
          simp only [List.any_append, Bool.or_eq_true] at hany
          rcases hany with h5 | h5
          · rw [hts0] at h5
            cases h5
          · exact q2 h5
        · intro hret
          obtain ⟨⟨f, hf1, hf2⟩, ⟨e, he1, he2⟩⟩ := q3 hret
          exact ⟨⟨f, getLast?_append_of_some _ hf1, hf2⟩,
            ⟨e, getLast?_append_of_some _ he1, he2⟩⟩

/-- A cookie attempt yields a finding exactly when its trace entry is
vulnerable, and any finding it yields is vulnerable. -/
theorem cookieAttempt_spec (http : Http) (cfg : Config) (url n p : PyStr)
    (te : TraceEntry) (fo : Option Finding)
    (h : cookieAttempt http cfg url n p = (te, fo)) :
    (∀ f, fo = some f → te.vulnerable = true ∧ f.vulnerable = true) ∧
    (fo = none → te.vulnerable = false) := by
  simp only [cookieAttempt] at h
  repeat' split at h
  all_goals simp only [Prod.mk.injEq] at h
  all_goals obtain ⟨h1, h2⟩ := h
  all_goals subst h1
  all_goals subst h2
  all_goals refine ⟨fun f hf => ?_, fun hn => ?_⟩
  all_goals first
    | (injection hf with hfe
       subst hfe
       exact ⟨rfl, rfl⟩)
    | rfl
    | cases hf
    | cases hn

/-- Fast-mode invariant of the cookie loop: it records only vulnerable
findings, only its last executed attempt can be vulnerable, and a
vulnerable attempt puts its finding in last position. -/
theorem cookieLoop_fast (http : Http) (cfg : Config) (url : PyStr)
    (hfast : cfg.fast = true) :
    ∀ (l : List (PyStr × PyStr)) (ts : List TraceEntry) (fs : List Finding),
      cookieLoop http cfg url l = (ts, fs) →
      (∀ e ∈ ts.dropLast, e.vulnerable = false) ∧
      (∀ f ∈ fs, f.vulnerable = true) ∧
      (ts.any (fun e => e.vulnerable) = true →
        ∃ f, fs.getLast? = some f ∧ f.vulnerable = true) := by
  intro l
  induction l with
  | nil =>
    intro ts fs h
    simp only [cookieLoop, Prod.mk.injEq] at h
    obtain ⟨h1, h2⟩ := h
    subst h1
    subst h2
    exact ⟨by simp, by simp, by simp⟩
  | cons np rest ih =>
    obtain ⟨n, p⟩ := np
    intro ts fs h
    simp only [cookieLoop] at h
    rcases hca : cookieAttempt http cfg url n p with ⟨te, fo⟩
    rw [hca] at h
    obtain ⟨ca1, ca2⟩ := cookieAttempt_spec http cfg url n p te fo hca
    simp only [] at h
    split at h
    · -- the attempt produced a finding
      rename_i f
      obtain ⟨hte, hfv⟩ := ca1 f rfl
      rw [hfast] at h
      simp only [if_true] at h
      simp only [Prod.mk.injEq] at h
      obtain ⟨h1, h2⟩ := h
      subst h1
      subst h2
      refine ⟨by simp, ?_, ?_⟩
      · intro f' hf'
        simp only [List.mem_singleton] at hf'
        subst hf'
        exact hfv
      · intro _
        exact ⟨f, rfl, hfv⟩
    · -- no finding from this attempt
      have hte := ca2 rfl
      rcases hrec : cookieLoop http cfg url rest with ⟨ts0, fs0⟩
      rw [hrec] at h
      simp only [Prod.mk.injEq] at h
      obtain ⟨h1, h2⟩ := h
      subst h1
      subst h2
      obtain ⟨i1, i2, i3⟩ := ih ts0 fs0 hrec
      refine ⟨?_, i2, ?_⟩
      · intro e he
        rcases @mem_dropLast_append _ _ [te] _ he with h5 | h5
        · simp only [List.mem_singleton] at h5
          subst h5
          exact hte
        · exact i1 e h5
      · intro hany
        simp only [List.any_cons, hte, Bool.false_or] at hany
        exact i3 hany

/-- The form tester never records a vulnerable attempt, and whenever it
returns normally its list of findings is empty. -/
theorem test_form_redirects_spec (http : Http) (cfg : Config) (url : PyStr)
    (t3 : List TraceEntry) (r : Option (List Finding))
    (h : test_form_redirects http cfg url = (t3, r)) :
    (∀ e ∈ t3, e.vulnerable = false) ∧ (∀ l, r = some l → l = []) := by
  simp only [test_form_redirects] at h
  repeat' split at h
  all_goals simp only [Prod.mk.injEq] at h
  all_goals obtain ⟨h1, h2⟩ := h
  all_goals subst h1
  all_goals subst h2
  all_goals refine ⟨?_, fun l hl => ?_⟩
  all_goals first
    | (intro e he
       simp only [List.mem_singleton] at he
       subst he
       rfl)
    | (intro e he
       exact absurd he (List.not_mem_nil e))
    | (injection hl with hle
       exact hle.symm)
    | cases hl

/-- C8: in fast mode, once any tester attempt on a target yields a
vulnerable result, scan_single_url executes no further attempt — every
executed attempt except possibly the last is non-vulnerable — and it
returns immediately with the results collected so far, the vulnerable
finding in last position. -/
theorem C8 (http : Http) (cfg : Config) (url : PyStr)
    (allPayloads headerPayloadsAll : List PyStr)
    (hfast : cfg.fast = true)
    (res : Except Unit (List Finding)) (trace : List TraceEntry)
    (h : scan_single_url http cfg url allPayloads headerPayloadsAll = (res, trace)) :
    (∀ e ∈ trace.dropLast, e.vulnerable = false) ∧
    (trace.any (fun e => e.vulnerable) = true →
      ∃ rs, res = Except.ok rs ∧ ∃ f, rs.getLast? = some f ∧ f.vulnerable = true) := by
  simp only [scan_single_url] at h
  rcases h1 : paramLoop http cfg url (if cfg.fast = true then allPayloads.take 3 else allPayloads)
      (if extract_redirect_params url = [] then fallback_params
       else extract_redirect_params url) false with ⟨rs1, t1, flag1, ret1⟩
  rw [h1] at h
  simp only [] at h
  obtain ⟨p1, p2, p3⟩ := paramLoop_fast http cfg url _ hfast _ false rs1 t1 flag1 ret1 h1
  split at h
  · -- the parameter phase returned early
    rename_i hret1
    simp only [Prod.mk.injEq] at h
    obtain ⟨hres, htr⟩ := h
    subst hres
    subst htr
    obtain ⟨⟨f, hf1, hf2⟩, he⟩ := p3 hret1
    exact ⟨p1, fun _ => ⟨rs1, rfl, f, hf1, hf2⟩⟩
  · rename_i hret1
    have ht1any : t1.any (fun e => e.vulnerable) = false := by
      cases hany : t1.any (fun e => e.vulnerable) with
      | false => rfl
      | true => exact absurd (p2 hany) hret1
    have ht1 := all_not_of_any_false ht1any
    rcases h2 : (if cfg.headers_test = true then
        headerLoop http cfg url (headerPayloadsAll.take 3) header_names flag1
      else ([], [], flag1, false)) with ⟨rs2, t2, flag2, ret2⟩
    rw [h2] at h
    simp only [] at h
    have hH : (∀ e ∈ t2.dropLast, e.vulnerable = false) ∧
        (t2.any (fun e => e.vulnerable) = true → ret2 = true) ∧
        (ret2 = true →
          (∃ f, rs2.getLast? = some f ∧ f.vulnerable = true) ∧
          (∃ e, t2.getLast? = some e ∧ e.vulnerable = true)) := by
      split at h2
      · exact headerLoop_fast http cfg url _ hfast header_names flag1 rs2 t2 flag2 ret2 h2
      · simp only [Prod.mk.injEq] at h2
        obtain ⟨a1, a2, a3, a4⟩ := h2
        subst a1
        subst a2
        subst a4
        refine ⟨by simp, by simp, ?_⟩
        intro hr
        cases hr
    obtain ⟨q1, q2, q3⟩ := hH
    split at h
    · -- the header phase returned early
      rename_i hret2
      simp only [Prod.mk.injEq] at h
      obtain ⟨hres, htr⟩ := h
      subst hres
      subst htr
      obtain ⟨⟨f, hf1, hf2⟩, he⟩ := q3 hret2
      refine ⟨?_, fun _ => ⟨rs1 ++ rs2, rfl, f, getLast?_append_of_some rs1 hf1, hf2⟩⟩
      intro e hel
      rcases mem_dropLast_append hel with h5 | h5
      · exact ht1 e h5
      · exact q1 e h5
    · rename_i hret2
      have ht2any : t2.any (fun e => e.vulnerable) = false := by
        cases hany : t2.any (fun e => e.vulnerable) with
        | false => rfl
        | true => exact absurd (q2 hany) hret2
      have ht2 := all_not_of_any_false ht2any
      split at h
      · -- the form tester crashed
        rename_i t3 hform
        obtain ⟨f1, f2⟩ := test_form_redirects_spec http cfg url t3 none hform
        simp only [Prod.mk.injEq] at h
        obtain ⟨hres, htr⟩ := h
        subst hres
        subst htr
        constructor
        · intro e hel
          have hmem := mem_dropLast hel
          rcases List.mem_append.mp hmem with h5 | h5
          · rcases List.mem_append.mp h5 with h6 | h6
            · exact ht1 e h6
            · exact ht2 e h6
          · exact f1 e h5
        · intro hany
          exfalso
          obtain ⟨e, hel, hv⟩ := List.any_eq_true.mp hany
          have hv' : e.vulnerable = true := hv
          rcases List.mem_append.mp hel with h5 | h5
          · rcases List.mem_append.mp h5 with h6 | h6
            · rw [ht1 e h6] at hv'
              cases hv'
            · rw [ht2 e h6] at hv'
              cases hv'
          · rw [f1 e h5] at hv'
            cases hv'
      · -- the form tester returned normally (with an empty list)
        rename_i t3 formList hform
        obtain ⟨f1, f2⟩ := test_form_redirects_spec http cfg url t3 (some formList) hform
        have hfl : formList = [] := f2 formList rfl
        subst hfl
        simp only [List.map_nil, List.any_nil, Bool.and_false, Bool.false_eq_true, if_false,
          List.append_nil] at h
        rcases hcookie : test_cookie_redirects http cfg url with ⟨t4, cookieList⟩
        rw [hcookie] at h
        simp only [Prod.mk.injEq] at h
        obtain ⟨hres, htr⟩ := h
        subst hres
        subst htr
        have hcl : cookieLoop http cfg url
            (cookie_names.flatMap fun n => (cookiePayloads cfg).map fun p => (n, p)) =
            (t4, cookieList) := by
          rw [← test_cookie_redirects]
          exact hcookie
        obtain ⟨c1, c2, c3⟩ := cookieLoop_fast http cfg url hfast _ t4 cookieList hcl
        constructor
        · intro e hel
          rcases mem_dropLast_append hel with h5 | h5
          · rcases List.mem_append.mp h5 with h6 | h6
            · rcases List.mem_append.mp h6 with h7 | h7
              · exact ht1 e h7
              · exact ht2 e h7
            · exact f1 e h6
          · exact c1 e h5
        · intro hany
          obtain ⟨e, hel, hv⟩ := List.any_eq_true.mp hany
          have hv' : e.vulnerable = true := hv
          have he4 : e ∈ t4 := by
            rcases List.mem_append.mp hel with h5 | h5
            · exfalso
              rcases List.mem_append.mp h5 with h6 | h6
              · rcases List.mem_append.mp h6 with h7 | h7
                · rw [ht1 e h7] at hv'
                  cases hv'
                · rw [ht2 e h7] at hv'
                  cases hv'
              · rw [f1 e h6] at hv'
                cases hv'
            · exact h5
          have hany4 : t4.any (fun e => e.vulnerable) = true :=
            List.any_eq_true.mpr ⟨e, he4, hv'⟩
          obtain ⟨f, hf1, hf2⟩ := c3 hany4
          have hmap : (cookieList.map
              (fun f => if f.vulnerable then enrichSeverity f else f)).getLast? =
              some (if f.vulnerable then enrichSeverity f else f) := by
            rw [getLast?_map, hf1]
            rfl
          refine ⟨_, rfl, ?_⟩
          refine ⟨_, getLast?_append_of_some _ hmap, ?_⟩
          rw [enrich_keeps_vulnerable]
          exact hf2

/-- Witness for C8 at a concrete input: a fast-mode scan whose first
parameter attempt is vulnerable stops there and returns that finding in
last position. -/
theorem C8_witness :
    ∃ res trace, scan_single_url c8http { fast := true } (S "http://a.com/?next=x")
        [S "http://evil.com"] [] = (res, trace) ∧
      (∀ e ∈ trace.dropLast, e.vulnerable = false) ∧
      ∃ rs, res = Except.ok rs ∧ ∃ f, rs.getLast? = some f ∧ f.vulnerable = true := by
  rcases hr : scan_single_url c8http { fast := true } (S "http://a.com/?next=x")
      [S "http://evil.com"] [] with ⟨res, trace⟩
  have hC := C8 c8http { fast := true } (S "http://a.com/?next=x")
      [S "http://evil.com"] [] rfl res trace hr
  have hvuln : ((scan_single_url c8http { fast := true } (S "http://a.com/?next=x")
      [S "http://evil.com"] []).2.any (fun e => e.vulnerable)) = true := by decide
  rw [hr] at hvuln
  exact ⟨res, trace, rfl, hC.1, hC.2 hvuln⟩

/-- Non-fast invariant of the parameter-phase inner loop: it never
requests the early return, and it records exactly one finding per
completed attempt — vulnerable or not. -/
theorem paramPayloadLoop_nonfast (http : Http) (cfg : Config) (url param : PyStr)
    (hnf : cfg.fast = false) :
    ∀ (pls : List PyStr) (flag : Bool) (fs : List Finding) (ts : List TraceEntry)
      (flag' ret : Bool),
      paramPayloadLoop http cfg url param pls flag = (fs, ts, flag', ret) →
      ret = false ∧
      fs.length = (ts.filter (fun e => e.completed)).length ∧
      ∀ e ∈ ts, isCookieAttempt e.attempt = false := by
  intro pls
  induction pls with
  | nil =>
    intro flag fs ts flag' ret h
    simp only [paramPayloadLoop, Prod.mk.injEq] at h
    obtain ⟨h1, h2, h3, h4⟩ := h
    subst h1
    subst h2
    subst h4
    exact ⟨rfl, rfl, by simp⟩
  | cons pl rest ih =>
    intro flag fs ts flag' ret h
    simp only [paramPayloadLoop] at h
    simp only [hnf, Bool.false_eq_true, if_false] at h
    split at h
    · rcases hrec : paramPayloadLoop http cfg url param rest flag with ⟨fs0, ts0, flag0, ret0⟩
      rw [hrec] at h
      simp only [Prod.mk.injEq] at h
      obtain ⟨h1, h2, h3, h4⟩ := h
      subst h1
      subst h2
      subst h4
      obtain ⟨ih1, ih2, ih3⟩ := ih flag fs0 ts0 flag0 ret0 hrec
      refine ⟨ih1, by simpa using ih2, ?_⟩
      intro e he
      rcases List.mem_cons.mp he with rfl | he'
      · rfl
      · exact ih3 e he'
    · rename_i f0 hres
      split at h
      · rename_i hv
        rcases hrec : paramPayloadLoop http cfg url param rest true with ⟨fs0, ts0, flag0, ret0⟩
        rw [hrec] at h
        simp only [Prod.mk.injEq] at h
        obtain ⟨h1, h2, h3, h4⟩ := h
        subst h1
        subst h2
        subst h4
        obtain ⟨ih1, ih2, ih3⟩ := ih true fs0 ts0 flag0 ret0 hrec
        refine ⟨ih1, by simpa using ih2, ?_⟩
        intro e he
        rcases List.mem_cons.mp he with rfl | he'
        · rfl
        · exact ih3 e he'
      · rename_i hnv
        rcases hrec : paramPayloadLoop http cfg url param rest flag with ⟨fs0, ts0, flag0, ret0⟩
        rw [hrec] at h
        simp only [Prod.mk.injEq] at h
        obtain ⟨h1, h2, h3, h4⟩ := h
        subst h1
        subst h2
        subst h4
        obtain ⟨ih1, ih2, ih3⟩ := ih flag fs0 ts0 flag0 ret0 hrec
        refine ⟨ih1, by simpa using ih2, ?_⟩
        intro e he
        rcases List.mem_cons.mp he with rfl | he'
        · rfl
        · exact ih3 e he'

/-- Non-fast invariant of the header-phase inner loop: one finding per
completed attempt and no early return. -/
theorem headerPayloadLoop_nonfast (http : Http) (cfg : Config) (url hname : PyStr)
    (hnf : cfg.fast = false) :
    ∀ (pls : List PyStr) (flag : Bool) (fs : List Finding) (ts : List TraceEntry)
      (flag' ret : Bool),
      headerPayloadLoop http cfg url hname pls flag = (fs, ts, flag', ret) →
      ret = false ∧
      fs.length = (ts.filter (fun e => e.completed)).length ∧
      ∀ e ∈ ts, isCookieAttempt e.attempt = false := by
  intro pls
  induction pls with
  | nil =>
    intro flag fs ts flag' ret h
    simp only [headerPayloadLoop, Prod.mk.injEq] at h
    obtain ⟨h1, h2, h3, h4⟩ := h
    subst h1
    subst h2
    subst h4
    exact ⟨rfl, rfl, by simp⟩
  | cons pl rest ih =>
    intro flag fs ts flag' ret h
    simp only [headerPayloadLoop] at h
    simp only [hnf, Bool.false_eq_true, if_false] at h
    split at h
    · rcases hrec : headerPayloadLoop http cfg url hname rest flag with ⟨fs0, ts0, flag0, ret0⟩
      rw [hrec] at h
      simp only [Prod.mk.injEq] at h
      obtain ⟨h1, h2, h3, h4⟩ := h
      subst h1
      subst h2
      subst h4
      obtain ⟨ih1, ih2, ih3⟩ := ih flag fs0 ts0 flag0 ret0 hrec
      refine ⟨ih1, by simpa using ih2, ?_⟩
      intro e he
      rcases List.mem_cons.mp he with rfl | he'
      · rfl
      · exact ih3 e he'
    · rename_i f0 hres
      split at h
      · rename_i hv
        rcases hrec : headerPayloadLoop http cfg url hname rest true with ⟨fs0, ts0, flag0, ret0⟩
        rw [hrec] at h
        simp only [Prod.mk.injEq] at h
        obtain ⟨h1, h2, h3, h4⟩ := h
        subst h1
        subst h2
        subst h4
        obtain ⟨ih1, ih2, ih3⟩ := ih true fs0 ts0 flag0 ret0 hrec
        refine ⟨ih1, by simpa using ih2, ?_⟩
        intro e he
        rcases List.mem_cons.mp he with rfl | he'
        · rfl
        · exact ih3 e he'
      · rename_i hnv
        rcases hrec : headerPayloadLoop http cfg url hname rest flag with ⟨fs0, ts0, flag0, ret0⟩
        rw [hrec] at h
        simp only [Prod.mk.injEq] at h
        obtain ⟨h1, h2, h3, h4⟩ := h
        subst h1
        subst h2
        subst h4
        obtain ⟨ih1, ih2, ih3⟩ := ih flag fs0 ts0 flag0 ret0 hrec
        refine ⟨ih1, by simpa using ih2, ?_⟩
        intro e he
        rcases List.mem_cons.mp he with rfl | he'
        · rfl
        · exact ih3 e he'

/-- Non-fast invariant of the parameter-phase outer loop. -/
theorem paramLoop_nonfast (http : Http) (cfg : Config) (url : PyStr) (payloads : List PyStr)
    (hnf : cfg.fast = false) :
    ∀ (ps : List PyStr) (flag : Bool) (fs : List Finding) (ts : List TraceEntry)
      (flag' ret : Bool),
      paramLoop http cfg url payloads ps flag = (fs, ts, flag', ret) →
      ret = false ∧
      fs.length = (ts.filter (fun e => e.completed)).length ∧
      ∀ e ∈ ts, isCookieAttempt e.attempt = false := by
  intro ps
  induction ps with
  | nil =>
    intro flag fs ts flag' ret h
    simp only [paramLoop, Prod.mk.injEq] at h
    obtain ⟨h1, h2, h3, h4⟩ := h
    subst h1
    subst h2
    subst h4
    exact ⟨rfl, rfl, by simp⟩
  | cons p psr ih =>
    intro flag fs ts flag' ret h
    simp only [paramLoop] at h
    simp only [hnf, Bool.and_false, Bool.false_eq_true, if_false] at h
    rcases hinner : paramPayloadLoop http cfg url p payloads flag with ⟨fs0, ts0, flag0, ret0⟩
    rw [hinner] at h
    obtain ⟨p0, p1, p2⟩ :=
      paramPayloadLoop_nonfast http cfg url p hnf payloads flag fs0 ts0 flag0 ret0 hinner
    subst p0
    simp only [Bool.false_eq_true, if_false] at h
    rcases houter : paramLoop http cfg url payloads psr flag0 with ⟨fs2, ts2, flag2, ret2⟩
    rw [houter] at h
    simp only [Prod.mk.injEq] at h
    obtain ⟨h1, h2, h3, h4⟩ := h
    subst h1
    subst h2
    subst h4
    obtain ⟨q0, q1, q2⟩ := ih flag0 fs2 ts2 flag2 ret2 houter
    refine ⟨q0, ?_, ?_⟩
    · simp only [List.filter_append, List.length_append, p1, q1]
    · intro e he
      rcases List.mem_append.mp he with h5 | h5
      · exact p2 e h5
      · exact q2 e h5

/-- Non-fast invariant of the header-phase outer loop. -/
theorem headerLoop_nonfast (http : Http) (cfg : Config) (url : PyStr) (payloads : List PyStr)
    (hnf : cfg.fast = false) :
    ∀ (hs : List PyStr) (flag : Bool) (fs : List Finding) (ts : List TraceEntry)
      (flag' ret : Bool),
      headerLoop http cfg url payloads hs flag = (fs, ts, flag', ret) →
      ret = false ∧
      fs.length = (ts.filter (fun e => e.completed)).length ∧
      ∀ e ∈ ts, isCookieAttempt e.attempt = false := by
  intro hs
  induction hs with
  | nil =>
    intro flag fs ts flag' ret h
    simp only [headerLoop, Prod.mk.injEq] at h
    obtain ⟨h1, h2, h3, h4⟩ := h
    subst h1
    subst h2
    subst h4
    exact ⟨rfl, rfl, by simp⟩
  | cons hn hsr ih =>
    intro flag fs ts flag' ret h
    simp only [headerLoop] at h
    simp only [hnf, Bool.and_false, Bool.false_eq_true, if_false] at h
    rcases hinner : headerPayloadLoop http cfg url hn payloads flag with ⟨fs0, ts0, flag0, ret0⟩
    rw [hinner] at h
    obtain ⟨p0, p1, p2⟩ :=
      headerPayloadLoop_nonfast http cfg url hn hnf payloads flag fs0 ts0 flag0 ret0 hinner
    subst p0
    simp only [Bool.false_eq_true, if_false] at h
    rcases houter : headerLoop http cfg url payloads hsr flag0 with ⟨fs2, ts2, flag2, ret2⟩
    rw [houter] at h
    simp only [Prod.mk.injEq] at h
    obtain ⟨h1, h2, h3, h4⟩ := h
    subst h1
    subst h2
    subst h4
    obtain ⟨q0, q1, q2⟩ := ih flag0 fs2 ts2 flag2 ret2 houter
    refine ⟨q0, ?_, ?_⟩
    · simp only [List.filter_append, List.length_append, p1, q1]
    · intro e he
      rcases List.mem_append.mp he with h5 | h5
      · exact p2 e h5
      · exact q2 e h5

/-- Every trace entry of a cookie attempt carries a cookie attempt
kind. -/
theorem cookieAttempt_kind (http : Http) (cfg : Config) (url n p : PyStr)
    (te : TraceEntry) (fo : Option Finding)
    (h : cookieAttempt http cfg url n p = (te, fo)) :
    isCookieAttempt te.attempt = true := by
  simp only [cookieAttempt] at h
  repeat' split at h
  all_goals simp only [Prod.mk.injEq] at h
  all_goals obtain ⟨h1, h2⟩ := h
  all_goals subst h1
  all_goals rfl

/-- Non-fast invariant of the cookie loop: it records one finding per
VULNERABLE attempt only — completed non-vulnerable attempts leave no
trace in the results. -/
theorem cookieLoop_nonfast (http : Http) (cfg : Config) (url : PyStr) :
    ∀ (l : List (PyStr × PyStr)) (ts : List TraceEntry) (fs : List Finding),
      cookieLoop http cfg url l = (ts, fs) →
      fs.length = (ts.filter (fun e => e.vulnerable)).length ∧
      (∀ f ∈ fs, f.vulnerable = true) ∧
      ∀ e ∈ ts, isCookieAttempt e.attempt = true := by
  intro l
  induction l with
  | nil =>
    intro ts fs h
    simp only [cookieLoop, Prod.mk.injEq] at h
    obtain ⟨h1, h2⟩ := h
    subst h1
    subst h2
    exact ⟨rfl, by simp, by simp⟩
  | cons np rest ih =>
    obtain ⟨n, p⟩ := np
    intro ts fs h
    simp only [cookieLoop] at h
    rcases hca : cookieAttempt http cfg url n p with ⟨te, fo⟩
    rw [hca] at h
    obtain ⟨ca1, ca2⟩ := cookieAttempt_spec http cfg url n p te fo hca
    have cak := cookieAttempt_kind http cfg url n p te fo hca
    simp only [] at h
    split at h
    · -- the attempt produced a (vulnerable) finding
      rename_i f
      obtain ⟨hte, hfv⟩ := ca1 f rfl
      rcases hrec : cookieLoop http cfg url rest with ⟨ts0, fs0⟩
      rw [hrec] at h
      split at h
      · -- fast mode: covered elsewhere; under any cfg this case still closes
        simp only [Prod.mk.injEq] at h
        obtain ⟨h1, h2⟩ := h
        subst h1
        subst h2
        refine ⟨by simp [hte], ?_, ?_⟩
        · intro f' hf'
          simp only [List.mem_singleton] at hf'
          subst hf'
          exact hfv
        · intro e he
          simp only [List.mem_singleton] at he
          subst he
          exact cak
      · simp only [Prod.mk.injEq] at h
        obtain ⟨h1, h2⟩ := h
        subst h1
        subst h2
        obtain ⟨i1, i2, i3⟩ := ih ts0 fs0 hrec
        refine ⟨by simp [hte, i1], ?_, ?_⟩
        · intro f' hf'
          rcases List.mem_cons.mp hf' with rfl | hf''
          · exact hfv
          · exact i2 f' hf''
        · intro e he
          rcases List.mem_cons.mp he with rfl | he'
          · exact cak
          · exact i3 e he'
    · -- no finding from this attempt
      have hte := ca2 rfl
      rcases hrec : cookieLoop http cfg url rest with ⟨ts0, fs0⟩
      rw [hrec] at h
      simp only [Prod.mk.injEq] at h
      obtain ⟨h1, h2⟩ := h
      subst h1
      subst h2
      obtain ⟨i1, i2, i3⟩ := ih ts0 fs0 hrec
      refine ⟨by simp [hte, i1], i2, ?_⟩
      intro e he
      rcases List.mem_cons.mp he with rfl | he'
      · exact cak
      · exact i3 e he'

/-- When the form tester returns normally, both its trace and its result
list are empty. -/
theorem test_form_redirects_ok_nil (http : Http) (cfg : Config) (url : PyStr)
    (t3 : List TraceEntry) (l : List Finding)
    (h : test_form_redirects http cfg url = (t3, some l)) :
    t3 = [] ∧ l = [] := by
  simp only [test_form_redirects] at h
  repeat' split at h
  all_goals simp only [Prod.mk.injEq] at h
  all_goals obtain ⟨h1, h2⟩ := h
  all_goals first
    | (injection h2 with h2e
       exact ⟨h1.symm, h2e.symm⟩)
    | cases h2

theorem filter_nil_of_all_false {α : Type} {p : α → Bool} {l : List α}
    (h : ∀ x ∈ l, p x = false) : l.filter p = [] := by
  induction l with
  | nil => rfl
  | cons a t ih =>
    rw [List.filter_cons, h a (by simp)]
    simp only [Bool.false_eq_true, if_false]
    exact ih (fun x hx => h x (by simp [hx]))

/-- C9 (amended): in non-fast mode, when the form tester survives, the
scan returns ok and holds exactly one result per completed
parameter/header attempt plus one per VULNERABLE cookie attempt —
completed non-vulnerable cookie attempts leave no result; when the form
tester raises, the scan returns an error and every previously
accumulated result is discarded. -/
theorem C9_amended (http : Http) (cfg : Config) (url : PyStr)
    (allPayloads headerPayloadsAll : List PyStr)
    (hnf : cfg.fast = false)
    (res : Except Unit (List Finding)) (trace : List TraceEntry)
    (h : scan_single_url http cfg url allPayloads headerPayloadsAll = (res, trace)) :
    ((test_form_redirects http cfg url).2 = none → res = Except.error ()) ∧
    ((test_form_redirects http cfg url).2 ≠ none →
      ∃ rs, res = Except.ok rs ∧
        rs.length =
          (trace.filter (fun e => e.completed && !(isCookieAttempt e.attempt))).length +
          (trace.filter (fun e => isCookieAttempt e.attempt && e.vulnerable)).length) := by
  simp only [scan_single_url] at h
  simp only [hnf, Bool.false_eq_true, if_false] at h
  rcases h1 : paramLoop http cfg url allPayloads
      (if extract_redirect_params url = [] then fallback_params
       else extract_redirect_params url) false with ⟨rs1, t1, flag1, ret1⟩
  rw [h1] at h
  obtain ⟨p0, p1, p2⟩ := paramLoop_nonfast http cfg url _ hnf _ false rs1 t1 flag1 ret1 h1
  subst p0
  simp only [Bool.false_eq_true, if_false] at h
  rcases h2 : (if cfg.headers_test = true then
      headerLoop http cfg url headerPayloadsAll header_names flag1
    else ([], [], flag1, false)) with ⟨rs2, t2, flag2, ret2⟩
  rw [h2] at h
  have hH : ret2 = false ∧ rs2.length = (t2.filter (fun e => e.completed)).length ∧
      ∀ e ∈ t2, isCookieAttempt e.attempt = false := by
    split at h2
    · exact headerLoop_nonfast http cfg url _ hnf header_names flag1 rs2 t2 flag2 ret2 h2
    · simp only [Prod.mk.injEq] at h2
      obtain ⟨a1, a2, a3, a4⟩ := h2
      subst a1
      subst a2
      subst a4
      exact ⟨rfl, rfl, by simp⟩
  obtain ⟨q0, q1, q2⟩ := hH
  subst q0
  simp only [Bool.false_eq_true, if_false] at h
  split at h
  · -- the form tester crashed: the scan returns an error
    rename_i t3 hform
    simp only [Prod.mk.injEq] at h
    obtain ⟨hres, htr⟩ := h
    subst hres
    subst htr
    refine ⟨fun _ => rfl, fun hne => ?_⟩
    rw [hform] at hne
    exact absurd rfl hne
  · -- the form tester returned normally
    rename_i t3 formList hform
    obtain ⟨ht3, hfl⟩ := test_form_redirects_ok_nil http cfg url t3 formList hform
    subst ht3
    subst hfl
    simp only [List.map_nil, List.any_nil, Bool.and_false, Bool.false_and, Bool.false_eq_true,
      if_false, List.append_nil] at h
    rcases hcookie : test_cookie_redirects http cfg url with ⟨t4, cookieList⟩
    rw [hcookie] at h
    simp only [Prod.mk.injEq] at h
    obtain ⟨hres, htr⟩ := h
    subst hres
    subst htr
    have hcl : cookieLoop http cfg url
        (cookie_names.flatMap fun n => (cookiePayloads cfg).map fun p => (n, p)) =
        (t4, cookieList) := by
      rw [← test_cookie_redirects]
      exact hcookie
    obtain ⟨c1, c2, c3⟩ := cookieLoop_nonfast http cfg url _ t4 cookieList hcl
    refine ⟨fun hno => ?_, fun _ => ⟨_, rfl, ?_⟩⟩
    · rw [hform] at hno
      simp at hno
    · have hA1 : t1.filter (fun e => e.completed && !(isCookieAttempt e.attempt)) =
          t1.filter (fun e => e.completed) := by
        refine List.filter_congr ?_
        intro e he
        rw [p2 e he]
        simp
      have hA2 : t2.filter (fun e => e.completed && !(isCookieAttempt e.attempt)) =
          t2.filter (fun e => e.completed) := by
        refine List.filter_congr ?_
        intro e he
        rw [q2 e he]
        simp
      have hA4 : t4.filter (fun e => e.completed && !(isCookieAttempt e.attempt)) = [] := by
        refine filter_nil_of_all_false ?_
        intro e he
        rw [c3 e he]
        simp
      have hB1 : t1.filter (fun e => isCookieAttempt e.attempt && e.vulnerable) = [] := by
        refine filter_nil_of_all_false ?_
        intro e he
        rw [p2 e he]
        simp
      have hB2 : t2.filter (fun e => isCookieAttempt e.attempt && e.vulnerable) = [] := by
        refine filter_nil_of_all_false ?_
        intro e he
        rw [q2 e he]
        simp
      have hB4 : t4.filter (fun e => isCookieAttempt e.attempt && e.vulnerable) =
          t4.filter (fun e => e.vulnerable) := by
        refine List.filter_congr ?_
        intro e he
        rw [c3 e he]
        simp
      simp only [List.filter_append, List.length_append, List.length_map,
        hA1, hA2, hA4, hB1, hB2, hB4, List.length_nil]
      rw [p1, q1, c1]
      omega

/-- C9 counterexample: (a) a non-fast scan in which one parameter
attempt and 51 cookie attempts complete — 52 completed attempts — yet
only one result is returned, because the cookie tester drops completed
non-vulnerable attempts; (b) a scan whose form tester raises returns an
error even though an earlier tester had completed an attempt and
accumulated its result. -/
theorem C9_counterexample :
    (exceptLen (scan_single_url c9http {} (S "http://a.com/?next=x")
        [S "http://evil.com"] []).1 = some 1 ∧
      ((scan_single_url c9http {} (S "http://a.com/?next=x")
        [S "http://evil.com"] []).2.filter (fun e => e.completed)).length = 52 ∧
      ¬ (1 : Nat) = 52) ∧
    (exceptLen (scan_single_url c9formhttp {} (S "http://a.com/?next=x")
        [S "http://evil.com"] []).1 = none ∧
      ((scan_single_url c9formhttp {} (S "http://a.com/?next=x")
        [S "http://evil.com"] []).2.filter (fun e => e.completed)).length = 1) :=
  ⟨⟨by decide, by decide, by decide⟩, by decide, by decide⟩

/-- Witness for C9_amended at a concrete input: the non-crashing scan
returns ok with the per-attempt accounting of the amended claim. -/
theorem C9_amended_witness :
    ∃ res trace, scan_single_url c9http {} (S "http://a.com/?next=x")
        [S "http://evil.com"] [] = (res, trace) ∧
      ∃ rs, res = Except.ok rs ∧
        rs.length =
          (trace.filter (fun e => e.completed && !(isCookieAttempt e.attempt))).length +
          (trace.filter (fun e => isCookieAttempt e.attempt && e.vulnerable)).length := by
  rcases hr : scan_single_url c9http {} (S "http://a.com/?next=x")
      [S "http://evil.com"] [] with ⟨res, trace⟩
  have hC := C9_amended c9http {} (S "http://a.com/?next=x")
      [S "http://evil.com"] [] rfl res trace hr
  have hne : (test_form_redirects c9http {} (S "http://a.com/?next=x")).2 ≠ none := by decide
  exact ⟨res, trace, rfl, hC.2 hne⟩
